import Mathlib

/-!
Verification of the label-anchored statement-field extractor of
`app/parser_enhanced.py` (repository `card_holder`).

The Python source is shallowly embedded: every extraction function of the
source becomes an executable Lean definition over `String` / `List Char`.
The regular expressions of the source's pattern library are hand-compiled
into backtracking matchers that reproduce Python `re` semantics (leftmost
scan, ordered alternation, greedy quantifiers with backtracking,
non-overlapping `findall` / `finditer` / `sub` resumption) for the concrete
patterns used by the source.  Modelling conventions, each noted where used:

* `str.lower()` is modelled on the ASCII letters (all configured keywords
  and labels are ASCII; the only non-ASCII character exercised is `'₹'`,
  which `lower()` leaves unchanged).
* the whitespace class `\s` is modelled as the six ASCII whitespace
  characters, `\w` as ASCII alphanumerics plus underscore.
* Python floats are modelled as exact rationals; all numeric candidates
  produced by the source's patterns carry at most two decimal places, so
  the model is exact on every reachable value.
* `dateutil.parser.parse` is an external collaborator library (not part of
  this repository); it is modelled from its documented behaviour on the
  token shapes produced by the source's date pattern, restricted to tokens
  that carry an explicit year and day.  Tokens whose interpretation depends
  on the current date (missing fields, two-digit years 50-99) are modelled
  as unparseable; the roles of such tokens in the claims are unaffected.
-/

set_option maxRecDepth 4000

namespace CardHolder

/-! ### Character classes (Python `\s`, `\d`, `\w`, ASCII lower-casing) -/

/-- Python `\s` (ASCII): space, tab, newline, carriage return, vertical tab,
form feed. -/
def isSpc (c : Char) : Bool :=
  c = ' ' || c = '\t' || c = '\n' || c = '\r' || c = '\x0b' || c = '\x0c'

/-- Python `\d` (ASCII digits). -/
def isDig (c : Char) : Bool := '0' ≤ c && c ≤ '9'

/-- ASCII letter. -/
def isAlph (c : Char) : Bool := ('a' ≤ c && c ≤ 'z') || ('A' ≤ c && c ≤ 'Z')

/-- Python `\w` (ASCII): letters, digits, underscore. -/
def isWord (c : Char) : Bool := isAlph c || isDig c || c = '_'

/-- ASCII lower-casing of one character; models `str.lower()` on the
character sets the source manipulates. -/
def lowerC (c : Char) : Char :=
  if 'A' ≤ c && c ≤ 'Z' then Char.ofNat (c.toNat + 32) else c

/-- ASCII lower-casing of a character list. -/
def lowerL (l : List Char) : List Char := l.map lowerC

/-! ### Text normalizer: `clean_text`

```python
def clean_text(txt):
    txt = re.sub(r"\r", "\n", txt)
    txt = re.sub(r"(\d+)\s*\n\s*(\d{3}\.\d{2})", r"\1,\2", txt)
    txt = re.sub(r"\s+", " ", txt)
    txt = re.sub(r"₹\s*₹", "₹", txt)
    return txt
```
-/

/-- Embeds `re.sub(r"\r", "\n", txt)`. -/
def sub1 (l : List Char) : List Char :=
  l.map fun c => if c = '\r' then '\n' else c

/-- Parse a `\d{3}\.\d{2}` group at the head of the list, returning the six
matched characters and the rest. -/
def dec32 : List Char → Option (List Char × List Char)
  | a :: b :: c :: d :: e :: f :: rest =>
    if isDig a && isDig b && isDig c && d = '.' && isDig e && isDig f then
      some ([a, b, c, d, e, f], rest)
    else none
  | _ => none

/-- Attempt of the pattern `(\d+)\s*\n\s*(\d{3}\.\d{2})` at the start of
`l`, which must begin with a digit.  The greedy `\d+` takes the maximal
digit run (taking fewer digits cannot help: the following `\s*\n` cannot
consume a digit); `\s*\n\s*` matches a maximal whitespace run containing at
least one `'\n'` (backtracking places the literal `\n` at the last newline
of the run; the tail `\d{3}` cannot consume whitespace, so the second `\s*`
must reach the end of the run); then exactly `\d{3}` `'.'` `\d{2}`.
Returns the replacement `\1,\2` together with the unconsumed rest. -/
def sub2Try (l : List Char) : Option (List Char × List Char) :=
  if (l.takeWhile isDig).isEmpty then none
  else
    if ((l.dropWhile isDig).takeWhile isSpc).contains '\n' then
      match dec32 ((l.dropWhile isDig).dropWhile isSpc) with
      | some (m, rest) => some (l.takeWhile isDig ++ ',' :: m, rest)
      | none => none
    else none

/-- Embeds `re.sub(r"(\d+)\s*\n\s*(\d{3}\.\d{2})", r"\1,\2", txt)`: leftmost
non-overlapping replacement, resuming after each replaced region. -/
def sub2F : Nat → List Char → List Char
  | 0, _ => []
  | fuel + 1, l =>
    match sub2Try l with
    | some (rep, rest) => rep ++ sub2F fuel rest
    | none =>
      match l with
      | [] => []
      | c :: cs => c :: sub2F fuel cs

/-- The substitution with adequate fuel (`sub2Try` always consumes at least
one character, so `l.length` steps suffice). -/
def sub2 (l : List Char) : List Char := sub2F l.length l

/-- Embeds `re.sub(r"\s+", " ", txt)`: collapse each maximal whitespace run to a
single space. -/
def sub3F : Nat → List Char → List Char
  | 0, _ => []
  | _, [] => []
  | fuel + 1, c :: cs =>
    if isSpc c then ' ' :: sub3F fuel (cs.dropWhile isSpc)
    else c :: sub3F fuel cs

/-- The substitution with adequate fuel. -/
def sub3 (l : List Char) : List Char := sub3F l.length l

/-- Attempt of `₹\s*₹` immediately after an initial `'₹'`: a maximal
whitespace run followed by `'₹'` (backtracking to a shorter run puts a
whitespace character where `'₹'` is required, so the maximal run is the
only viable split).  Returns the rest after the closing `'₹'`. -/
def rupTry (l : List Char) : Option (List Char) :=
  match l.dropWhile isSpc with
  | '₹' :: rest => some rest
  | _ => none

/-- Embeds `re.sub(r"₹\s*₹", "₹", txt)`: leftmost non-overlapping replacement. -/
def sub4F : Nat → List Char → List Char
  | 0, _ => []
  | _, [] => []
  | fuel + 1, c :: cs =>
    if c = '₹' then
      match rupTry cs with
      | some rest => '₹' :: sub4F fuel rest
      | none => c :: sub4F fuel cs
    else c :: sub4F fuel cs

/-- The substitution with adequate fuel. -/
def sub4 (l : List Char) : List Char := sub4F l.length l

/-- Embeds `clean_text` of the source, on character lists. -/
def cleanL (l : List Char) : List Char := sub4 (sub3 (sub2 (sub1 l)))

/-- Embeds `clean_text(txt)` — the source's text normalizer. -/
def clean_text (s : String) : String := ⟨cleanL s.data⟩

/-- Existence of a match of `₹\s*₹` somewhere in the list (the condition
under which `sub4` rewrites). -/
def hasRupMatch (l : List Char) : Bool :=
  match l with
  | [] => false
  | c :: cs =>
    if c = '₹' then
      match rupTry cs with
      | some _ => true
      | none => hasRupMatch cs
    else hasRupMatch cs

/-- String-level wrapper for `hasRupMatch`. -/
def hasRupPair (s : String) : Bool := hasRupMatch s.data

/-! ### Substring search (Python `in`, `str.find`) -/

/-- Python `needle in hay` (substring containment). -/
def containsL (needle hay : List Char) : Bool :=
  (List.range (hay.length + 1)).any fun i => needle.isPrefixOf (hay.drop i)

/-- All occurrence indices of `needle` in `hay`, ascending — the positions
produced by the source's `while True: idx = lower.find(lbl, start); ...;
start = idx + 1` loop (overlapping occurrences included). -/
def allOccs (needle hay : List Char) : List Nat :=
  (List.range (hay.length + 1)).filter fun i => needle.isPrefixOf (hay.drop i)

/-- ASCII lower-casing of a string (`str.lower()` model). -/
def strLower (s : String) : String := ⟨lowerL s.data⟩

/-! ### Issuer classifier: `detect_issuer`

```python
ISSUERS = {
    "HDFC": {"keywords": ["hdfc"], "cycle_days": 30},
    "ICICI": {"keywords": ["icici"], "cycle_days": 35},
    "SBI": {"keywords": ["sbi", "state bank of india"], "cycle_days": 40},
    "AXIS": {"keywords": ["axis"], "cycle_days": 45},
    "KOTAK": {"keywords": ["kotak"], "cycle_days": 60},
}
def detect_issuer(text):
    lower = text.lower()
    for name, conf in ISSUERS.items():
        if any(k in lower for k in conf["keywords"]):
            return name
    return "UNKNOWN"
```
Python dicts iterate in insertion order, so the enumeration order is the
declaration order above. -/

/-- The `ISSUERS` configuration: (id, keywords, cycle_days), in declaration
order. -/
def ISSUERS : List (String × List String × Nat) :=
  [("HDFC", (["hdfc"], 30)),
   ("ICICI", (["icici"], 35)),
   ("SBI", (["sbi", "state bank of india"], 40)),
   ("AXIS", (["axis"], 45)),
   ("KOTAK", (["kotak"], 60))]

/-- The classifier loop over the issuer table. -/
def detectGo (lower : List Char) : List (String × List String × Nat) → String
  | [] => "UNKNOWN"
  | (name, kws, _) :: rest =>
    if kws.any (fun k => containsL k.data lower) then name else detectGo lower rest

/-- Embeds `detect_issuer(text)` — first issuer (in declaration order) one of whose
keywords occurs in the lower-cased text; `"UNKNOWN"` otherwise. -/
def detect_issuer (text : String) : String := detectGo (lowerL text.data) ISSUERS

/-! ### Backtracking matchers for the source's regular expressions

A matcher (`Mtr`) maps an input suffix to the list of consumable lengths,
in the preference order in which a backtracking regex engine would produce
them (first element = the length the Python `re` match would consume).
Greedy quantifiers list longer alternatives first; ordered alternation
concatenates; sequencing explores the left matcher's preferences
depth-first — exactly Python `re`'s leftmost, ordered-alternation,
greedy-with-backtracking semantics. -/

/-- A backtracking matcher: possible consumed lengths, preference order. -/
abbrev Mtr := List Char → List Nat

/-- Sequencing (depth-first over the left matcher's preferences). -/
def mseq (p q : Mtr) : Mtr := fun s =>
  (p s).flatMap fun n => (q (s.drop n)).map (n + ·)

/-- Ordered alternation. -/
def malt (p q : Mtr) : Mtr := fun s => p s ++ q s

/-- Empty matcher (always consumes nothing). -/
def mnil : Mtr := fun _ => [0]

/-- Greedy `?`: try the matcher, then the empty alternative. -/
def mopt (p : Mtr) : Mtr := fun s => p s ++ [0]

/-- Single character of a class. -/
def mcls (f : Char → Bool) : Mtr := fun s =>
  match s with
  | c :: _ => if f c then [1] else []
  | [] => []

/-- Case-sensitive literal. -/
def mlit (w : List Char) : Mtr := fun s => if w.isPrefixOf s then [w.length] else []

/-- Case-insensitive literal (`w` given lower-case). -/
def mlitCI (w : List Char) : Mtr := fun s =>
  if w.isPrefixOf (lowerL (s.take w.length)) then [w.length] else []

/-- Greedy bounded class repetition `f{lo,hi}`: lengths from the maximal
run (capped at `hi`) down to `lo`. -/
def mrep (f : Char → Bool) (lo hi : Nat) : Mtr := fun s =>
  ((List.range (min (s.takeWhile f).length hi + 1)).filter (lo ≤ ·)).reverse

/-- Greedy unbounded class star `f*`. -/
def mstarCls (f : Char → Bool) : Mtr := fun s =>
  (List.range ((s.takeWhile f).length + 1)).reverse

/-- Greedy unbounded class plus `f+`. -/
def mplusCls (f : Char → Bool) : Mtr := fun s =>
  ((List.range ((s.takeWhile f).length + 1)).filter (1 ≤ ·)).reverse

/-- Greedy star over a sub-matcher, fuelled (each iteration must consume). -/
def mstarP (p : Mtr) : Nat → Mtr
  | 0, _ => [0]
  | fuel + 1, s =>
    (((p s).filter (0 < ·)).flatMap fun n =>
      (mstarP p fuel (s.drop n)).map (n + ·)) ++ [0]

/-- Greedy star over a sub-matcher. -/
def mstar (p : Mtr) : Mtr := fun s => mstarP p s.length s

/-- Greedy counted repetition `p{0,n}` (more iterations preferred). -/
def mcount (p : Mtr) : Nat → Mtr
  | 0 => mnil
  | n + 1 => malt (mseq p (mcount p n)) mnil

/-- Non-overlapping scan (`re.finditer`): leftmost matches, resuming after
each match; yields (start index, matched text). -/
def finditerMF (m : Mtr) : Nat → List Char → Nat → List (Nat × String)
  | 0, _, _ => []
  | _, [], _ => []
  | fuel + 1, c :: cs, i =>
    match (m (c :: cs)).head? with
    | some n =>
      if 0 < n then
        (i, ⟨(c :: cs).take n⟩) :: finditerMF m fuel ((c :: cs).drop n) (i + n)
      else finditerMF m fuel cs (i + 1)
    | none => finditerMF m fuel cs (i + 1)

/-- The scan with adequate fuel (every match consumes). -/
def finditerM (m : Mtr) (l : List Char) (i : Nat) : List (Nat × String) :=
  finditerMF m l.length l i

/-! ### Amount pattern and numeric candidate normalization

```python
RE_AMOUNT = re.compile(r"(?:₹|Rs\.?|INR|USD|EUR|[$€£])?\s*\d{1,3}(?:[,\s]\d{3})*(?:\.\d{1,2})?", re.IGNORECASE)
```
-/

/-- The optional currency marker `(?:₹|Rs\.?|INR|USD|EUR|[$€£])`. -/
def curAlt : Mtr :=
  malt (mlit ['₹'])
    (malt (mseq (mlitCI ['r', 's']) (mopt (mlit ['.'])))
      (malt (mlitCI ['i', 'n', 'r'])
        (malt (mlitCI ['u', 's', 'd'])
          (malt (mlitCI ['e', 'u', 'r'])
            (mcls fun c => c = '$' || c = '€' || c = '£')))))

/-- One thousands group `[,\s]\d{3}`. -/
def grp3 : Mtr := mseq (mcls fun c => c = ',' || isSpc c) (mrep isDig 3 3)

/-- Embeds `RE_AMOUNT` as a matcher. -/
def reAmountM : Mtr :=
  mseq (mopt curAlt)
    (mseq (mstarCls isSpc)
      (mseq (mrep isDig 1 3)
        (mseq (mstar grp3) (mopt (mseq (mlit ['.']) (mrep isDig 1 2))))))

/-- The bare-number pattern `\d{1,3}(?:[,\s]\d{3})*(?:\.\d{1,2})?` used on
the 40-character label suffix/prefix snippets. -/
def plainNumM : Mtr :=
  mseq (mrep isDig 1 3)
    (mseq (mstar grp3) (mopt (mseq (mlit ['.']) (mrep isDig 1 2))))

/-- Value of a digit list. -/
def digitsVal (l : List Char) : Nat := l.foldl (fun a c => a * 10 + (c.toNat - 48)) 0

/-- A decimal number at the head of the list (head is a digit): greedy
integer digits, then an optional `.`+digits fractional tail — the value of
`-?\d+(?:\.\d+)?` sans sign. -/
def decHere (s : List Char) : ℚ :=
  let ds := s.takeWhile isDig
  match s.dropWhile isDig with
  | '.' :: r2 =>
    let fs := r2.takeWhile isDig
    if fs.isEmpty then mkRat (digitsVal ds) 1
    else mkRat (digitsVal ds * 10 ^ fs.length + digitsVal fs) (10 ^ fs.length)
  | _ => mkRat (digitsVal ds) 1

/-- Embeds `re.search(r"-?\d+(?:\.\d+)?", s)` → numeric value of the first match
(Python `float` modelled as an exact rational). -/
def scanDec : List Char → Option ℚ
  | [] => none
  | c :: cs =>
    if isDig c then some (decHere (c :: cs))
    else
      if c = '-' && (match cs with | d :: _ => isDig d | [] => false) then
        some (Rat.neg (decHere cs))
      else scanDec cs

/-- One decimal digit as a character. -/
def digitChar (n : Nat) : Char := Char.ofNat (48 + n)

/-- Decimal digits of a natural number, most significant first (fuelled:
`n + 1` steps always suffice since the argument shrinks ten-fold). -/
def natDigitsF : Nat → Nat → List Char
  | 0, _ => []
  | fuel + 1, n =>
    if n < 10 then [digitChar n]
    else natDigitsF fuel (n / 10) ++ [digitChar (n % 10)]

/-- Decimal digits of a natural number, most significant first. -/
def natDigits (n : Nat) : List Char := natDigitsF (n + 1) n

/-- Insert a comma after every third character of a reversed digit list. -/
def commaRev : List Char → List Char
  | a :: b :: c :: d :: rest => a :: b :: c :: ',' :: commaRev (d :: rest)
  | l => l

/-- Thousands-grouped decimal rendering of a natural number. -/
def commaNat (n : Nat) : List Char := (commaRev (natDigits n).reverse).reverse

/-- Two-digit zero-padded rendering. -/
def pad2 (n : Nat) : List Char :=
  if n < 10 then ['0', digitChar n] else natDigits n

/-- Zero-pad a digit list on the left to `k` characters (`strftime`'s
`%Y`/`%m`/`%d` padding). -/
def padZeros (k : Nat) (ds : List Char) : List Char :=
  List.replicate (k - ds.length) '0' ++ ds

/-- Python `f"₹{val:,.2f}"`: round the absolute value to two decimals
(ties to even, as float formatting does), thousands-grouped, sign kept.
The rounding is exact here: every candidate the source's patterns produce
carries at most two decimal places, so no tie or truncation can occur. -/
def formatQ (q : ℚ) : String :=
  let t := q.num.natAbs * 100
  let q0 := t / q.den
  let r := t % q.den
  let cents := q0 + (if 2 * r < q.den then 0 else if q.den < 2 * r then 1 else q0 % 2)
  ⟨('₹' :: (if q.num < 0 then ['-'] else []))
    ++ commaNat (cents / 100) ++ '.' :: pad2 (cents % 100)⟩

/-- Embeds `clean_and_format_amount_candidate(raw_text)`:

```python
s = re.sub(r"[^\d\.\-]", "", raw_text)
if not s: return None, None
m = re.search(r"-?\d+(?:\.\d+)?", s)
if not m: return None, None
val = float(m.group(0))
formatted = f"₹{val:,.2f}"
return val, formatted
```
(The `float()` call cannot fail on a `-?\d+(?:\.\d+)?` token.) -/
def clean_and_format_amount_candidate (raw : String) : Option (ℚ × String) :=
  let s := raw.data.filter fun c => isDig c || c = '.' || c = '-'
  if s.isEmpty then none
  else
    match scanDec s with
    | none => none
    | some v => some (v, formatQ v)

/-! ### Label-anchored total-due resolver: `find_label_value` -/

/-- The transient amount candidate of the source (spec `AmountCandidate`):
value, formatted string, distance from the anchoring label occurrence, raw
text, label, absolute position (`Int`: the prefix-scan position
`idx - 40 + m.start()` can be negative when `idx < 40`, faithfully kept). -/
structure AmountCand where
  val : ℚ
  fmt : String
  distance : Nat
  raw : String
  lbl : String
  pos : Int
deriving DecidableEq, Repr

/-- The hard-coded extension of the caller's label set in
`find_label_value`. -/
def hardLabels : List String :=
  ["total amount due", "amount due", "total due", "total outstanding",
   "new balance", "balance due", "statement balance", "outstanding amount",
   "amount payable", "payment due", "total payment", "amount to be paid",
   "total bill amount", "amount outstanding", "balance payable",
   "closing balance", "total dues", "due amount"]

/-- Keep-first deduplication. -/
def dedupKeepFirst (l : List String) : List String :=
  l.foldl (fun acc x => if acc.contains x then acc else acc ++ [x]) []

/-- The extended label set.  The source builds a Python `set`, whose
iteration order is unspecified; the candidate pool below is the same
multiset for every enumeration order and the selected formatted value is
order-independent (candidates of equal numeric value have equal formatted
strings), so one order is fixed here: the caller's labels (lowered) first,
then the hard-coded additions, first occurrence kept. -/
def extendedLabels (labels : List String) : List String :=
  dedupKeepFirst (labels.map strLower ++ hardLabels)

/-- All `(label, index)` occurrence pairs in the lower-cased text. -/
def labelPositions (lower : List Char) (labels : List String) :
    List (String × Nat) :=
  (extendedLabels labels).flatMap fun lbl =>
    (allOccs lbl.data lower).map fun i => (lbl, i)

/-- The candidates harvested for one label occurrence: `RE_AMOUNT` matches
in the `[idx-120, idx+len+300]` window, plus bare-number matches in the
40-character suffix after and prefix before the label.  Positions and
distances are recorded exactly as the source records them (including the
prefix quirk `abs_pos = idx - 40 + m.start()` without clamping). -/
def candsFor (t : List Char) (lbl : String) (idx : Nat) : List AmountCand :=
  let L := lbl.length
  let ws := idx - 120
  let we := min t.length (idx + L + 300)
  let win := (t.drop ws).take (we - ws)
  let winCands := (finditerM reAmountM win 0).filterMap fun p =>
    (clean_and_format_amount_candidate p.2).map fun vf =>
      ⟨vf.1, vf.2, (((ws + p.1 : Nat) : Int) - (idx : Int)).natAbs, p.2, lbl,
        ((ws + p.1 : Nat) : Int)⟩
  let sfx := (t.drop (idx + L)).take 40
  let sfxCands := (finditerM plainNumM sfx 0).filterMap fun p =>
    (clean_and_format_amount_candidate p.2).map fun vf =>
      ⟨vf.1, vf.2, (((idx + L + p.1 : Nat) : Int) - (idx : Int)).natAbs, p.2, lbl,
        ((idx + L + p.1 : Nat) : Int)⟩
  let pstart := idx - 40
  let pfx := (t.drop pstart).take (idx - pstart)
  let pfxCands := (finditerM plainNumM pfx 0).filterMap fun p =>
    (clean_and_format_amount_candidate p.2).map fun vf =>
      ⟨vf.1, vf.2, (((idx : Int) - 40 + (p.1 : Int)) - (idx : Int)).natAbs, p.2, lbl,
        ((idx : Int) - 40 + (p.1 : Int))⟩
  winCands ++ sfxCands ++ pfxCands

/-- The pool of candidates across all label occurrences. -/
def pooled0 (t : List Char) (positions : List (String × Nat)) :
    List AmountCand :=
  positions.flatMap fun p => candsFor t p.1 p.2

/-- Python `max(candidates, key=lambda c: (c["val"], -c["distance"]))`
keeps the current best unless the new key is strictly greater. -/
def keyGT (x a : AmountCand) : Bool :=
  a.val < x.val || (x.val = a.val && x.distance < a.distance)

/-- Left fold of `max` with the lexicographic key (first maximum kept). -/
def pickBest (a : AmountCand) : List AmountCand → AmountCand
  | [] => a
  | x :: xs => pickBest (if keyGT x a then x else a) xs

/-- Document-wide fallback when no label occurs: all `RE_AMOUNT` matches,
largest numeric value wins (`max(candidates, key=lambda x: x[0])`, first
maximum kept). -/
def fallbackAmount (t : List Char) : Option String :=
  let cands := (finditerM reAmountM t 0).filterMap fun p =>
    (clean_and_format_amount_candidate p.2).map fun vf => (vf.1, vf.2, p.1)
  match cands with
  | [] => none
  | c :: cs =>
    some (cs.foldl (fun a x => if a.1 < x.1 then x else a) c).2.1

/-- The candidate pool of `find_label_value` (empty for empty text, which
the source rejects before pooling). -/
def pooledCandidates (text : String) (labels : List String) :
    List AmountCand :=
  if text.data.isEmpty then []
  else pooled0 text.data (labelPositions (lowerL text.data) labels)

/-- Embeds `find_label_value(text, labels)` — the label-anchored total-due
resolver of the source. -/
def find_label_value (text : String) (labels : List String) : Option String :=
  if text.data.isEmpty then none
  else
    if (labelPositions (lowerL text.data) labels).isEmpty then
      fallbackAmount text.data
    else
      match pooled0 text.data (labelPositions (lowerL text.data) labels) with
      | [] => none
      | c :: cs => some (pickBest c cs).fmt

/-! ### Date pattern

```python
RE_DATE = re.compile(r"\b(?:\d{1,2}[\/\-\.\s]\d{1,2}[\/\-\.\s]\d{2,4}|[A-Za-z]{3,9}\s+\d{1,2},?\s*\d{0,4}|[A-Za-z]{3,9}\s+\d{4})\b")
```
-/

/-- Date separator class `[\/\-\.\s]`. -/
def isDateSep (c : Char) : Bool := c = '/' || c = '-' || c = '.' || isSpc c

/-- Numeric branch `\d{1,2}[\/\-\.\s]\d{1,2}[\/\-\.\s]\d{2,4}`. -/
def dateBranchA : Mtr :=
  mseq (mrep isDig 1 2)
    (mseq (mcls isDateSep)
      (mseq (mrep isDig 1 2) (mseq (mcls isDateSep) (mrep isDig 2 4))))

/-- Textual branch `[A-Za-z]{3,9}\s+\d{1,2},?\s*\d{0,4}`. -/
def dateBranchB : Mtr :=
  mseq (mrep isAlph 3 9)
    (mseq (mplusCls isSpc)
      (mseq (mrep isDig 1 2)
        (mseq (mopt (mlit [','])) (mseq (mstarCls isSpc) (mrep isDig 0 4)))))

/-- Textual branch `[A-Za-z]{3,9}\s+\d{4}`. -/
def dateBranchC : Mtr :=
  mseq (mrep isAlph 3 9) (mseq (mplusCls isSpc) (mrep isDig 4 4))

/-- The alternation body of `RE_DATE` (without the surrounding `\b`). -/
def dateBody : Mtr := malt dateBranchA (malt dateBranchB dateBranchC)

/-- Word-property of an optional character (out-of-string = non-word). -/
def isWordOpt : Option Char → Bool
  | some c => isWord c
  | none => false

/-- The first length of `dateBody` at this position that also satisfies the
trailing `\b` (boundary between the last consumed character and the
following one). -/
def dateLenAt (s : List Char) : Option Nat :=
  ((dateBody s).filter fun n =>
    0 < n && (isWordOpt (s.get? (n - 1)) != isWordOpt (s.get? n))).head?

/-- Embeds `RE_DATE.findall`: leftmost non-overlapping scan.  Every `dateBody`
match begins with a word character (digit or letter), so the leading `\b`
is equivalent to the preceding character being non-word. -/
def dateFindallF : Nat → Option Char → List Char → List String
  | 0, _, _ => []
  | _, _, [] => []
  | fuel + 1, prev, c :: cs =>
    if isWordOpt prev then dateFindallF fuel (some c) cs
    else
      match dateLenAt (c :: cs) with
      | some n =>
        if 0 < n then
          ⟨(c :: cs).take n⟩ ::
            dateFindallF fuel ((c :: cs).get? (n - 1)) ((c :: cs).drop n)
        else dateFindallF fuel (some c) cs
      | none => dateFindallF fuel (some c) cs

/-- The scan with adequate fuel. -/
def dateFindall (prev : Option Char) (s : List Char) : List String :=
  dateFindallF s.length prev s

/-- Embeds `RE_DATE.findall(window)` on a string (no character precedes the
window start, matching `re` slicing semantics). -/
def reDateFindall (s : String) : List String := dateFindall none s.data

/-! ### Date token parsing — model of `dateutil.parser.parse`

`dateutil` is an external collaborator library (the repository only calls
it).  `parseDateToken` models
`dateutil.parser.parse(d, fuzzy=True, dayfirst=True)` followed by
`.strftime("%Y-%m-%d")` on the token shapes `RE_DATE` produces:

* `d1 sep d2 sep y`: day-first (`d2` is the month unless it exceeds 12, in
  which case the two are swapped), with calendar validation;
* `monthname d [,] y`: textual month, day, year;
* two-digit years 00–49 resolve to 2000–2049 (the century `dateutil`
  chooses for them on any run date before 2050); years 50–99 and tokens
  missing an explicit year or day resolve relative to the run date in
  `dateutil` and are modelled as unparseable — every such token is
  today-dependent, which no pure embedding can express, and none of the
  claims' inputs contain one. -/

/-- Leap year. -/
def isLeap (y : Nat) : Bool := y % 4 = 0 && (y % 100 ≠ 0 || y % 400 = 0)

/-- Days in a month. -/
def daysInMonth (y m : Nat) : Nat :=
  if m = 2 then (if isLeap y then 29 else 28)
  else if m = 4 || m = 6 || m = 9 || m = 11 then 30
  else 31

/-- Month-name table (full names and three-letter abbreviations). -/
def monthOf (w : List Char) : Option Nat :=
  let lw : String := ⟨lowerL w⟩
  let names : List (String × Nat) :=
    [("january", 1), ("february", 2), ("march", 3), ("april", 4),
     ("may", 5), ("june", 6), ("july", 7), ("august", 8),
     ("september", 9), ("october", 10), ("november", 11), ("december", 12),
     ("jan", 1), ("feb", 2), ("mar", 3), ("apr", 4), ("jun", 6),
     ("jul", 7), ("aug", 8), ("sep", 9), ("oct", 10), ("nov", 11),
     ("dec", 12)]
  (names.find? fun p => p.1 = lw).map (·.2)

/-- A token's alphanumeric runs: alphabetic runs tagged `true`, digit runs
tagged `false` (separators dropped), each with its text. -/
def tokenRunsF : Nat → List Char → List (Bool × List Char)
  | 0, _ => []
  | _, [] => []
  | fuel + 1, c :: cs =>
    if isAlph c then
      (true, c :: cs.takeWhile isAlph) :: tokenRunsF fuel (cs.dropWhile isAlph)
    else if isDig c then
      (false, c :: cs.takeWhile isDig) :: tokenRunsF fuel (cs.dropWhile isDig)
    else tokenRunsF fuel cs

/-- The run decomposition with adequate fuel. -/
def tokenRuns (l : List Char) : List (Bool × List Char) := tokenRunsF l.length l

/-- Year of a digit run: explicit 3+-digit years stand as written,
two-digit years 00–49 get century 2000, all others are today-dependent in
`dateutil` and modelled as unparseable. -/
def yearOfRun (r : List Char) : Option Nat :=
  if 3 ≤ r.length then some (digitsVal r)
  else if r.length = 2 && digitsVal r ≤ 49 then some (2000 + digitsVal r)
  else none

/-- Calendar-validated date. -/
def mkDate (y m d : Nat) : Option (Nat × Nat × Nat) :=
  if 1 ≤ m && m ≤ 12 && 1 ≤ d && d ≤ daysInMonth y m then some (y, m, d)
  else none

/-- Model of `dateutil.parser.parse(token, fuzzy=True, dayfirst=True)` on
`RE_DATE` tokens (see section comment). -/
def parseDateToken (tok : String) : Option (Nat × Nat × Nat) :=
  match tokenRuns tok.data with
  | [(false, a), (false, b), (false, c)] =>
    match yearOfRun c with
    | none => none
    | some y =>
      let d1 := digitsVal a
      let d2 := digitsVal b
      if d2 ≤ 12 then mkDate y d2 d1 else mkDate y d1 d2
  | [(true, w), (false, a), (false, b)] =>
    match monthOf w, yearOfRun b with
    | some m, some y => mkDate y m (digitsVal a)
    | _, _ => none
  | _ => none

/-- Embeds `%Y-%m-%d` rendering (`%Y` zero-pads to four digits, `%m`/`%d` to
two). -/
def formatDate (y m d : Nat) : String :=
  ⟨padZeros 4 (natDigits y) ++ '-' :: padZeros 2 (natDigits m) ++
    '-' :: padZeros 2 (natDigits d)⟩

/-- A date parsed from a token, accepted only when its year lies in the
source's plausible range, rendered `%Y-%m-%d` — the body of
`try: dt = dateparse.parse(d, fuzzy=True, dayfirst=True);
if 2020 <= dt.year <= 2100: return dt.strftime("%Y-%m-%d")`. -/
def validDateOf (tok : String) : Option String :=
  match parseDateToken tok with
  | some (y, m, d) => if 2020 ≤ y && y ≤ 2100 then some (formatDate y m d) else none
  | none => none

/-- Early-return loop `for d in RE_DATE.findall(...)` over a token list:
first token that parses to a valid-range date. -/
def firstValidDate : List String → Option String
  | [] => none
  | t :: ts =>
    match validDateOf t with
    | some s => some s
    | none => firstValidDate ts

/-- The valid-range dates of all tokens of a text, in document order. -/
def validDates (t : String) : List String :=
  (reDateFindall t).filterMap validDateOf

/-! ### Due-date resolver: `find_due_date_near_label`

```python
def find_due_date_near_label(text):
    for lbl in ["payment due date", "due date", "pay by", "payment date"]:
        idx = text.lower().find(lbl)
        if idx != -1:
            window = text[idx : idx + 200]
            for d in RE_DATE.findall(window): ...return first valid...
    for d in RE_DATE.findall(text): ...return first valid...
    return None
```
-/

/-- The fixed due-label priority list. -/
def dueLabels : List String :=
  ["payment due date", "due date", "pay by", "payment date"]

/-- First occurrence index of `needle` in `hay` (Python `str.find`). -/
def strFind (needle hay : List Char) : Option Nat :=
  (allOccs needle hay).head?

/-- The first valid-range date in the 200-character window after the first
occurrence of a label (`none` when the label does not occur or its window
has no valid date). -/
def labelFirstValid (text : String) (lbl : String) : Option String :=
  match strFind lbl.data (lowerL text.data) with
  | none => none
  | some idx => firstValidDate (reDateFindall ⟨(text.data.drop idx).take 200⟩)

/-- The label loop of `find_due_date_near_label` (continues to the next
label when a window yields nothing). -/
def dueLoop (text : String) : List String → Option String
  | [] => firstValidDate (reDateFindall text)
  | l :: ls =>
    match labelFirstValid text l with
    | some d => some d
    | none => dueLoop text ls

/-- Embeds `find_due_date_near_label(text)` — the source's due-date resolver. -/
def find_due_date_near_label (text : String) : Option String :=
  dueLoop text dueLabels

/-! ### Billing-cycle generator: `generate_billing_cycle`

```python
def generate_billing_cycle(issuer, due_date_str):
    if not due_date_str: return None
    try: due_date = dateparse.parse(due_date_str)
    except Exception: return None
    days = ISSUERS.get(issuer, {}).get("cycle_days", 30)
    start_date = due_date - timedelta(days=days)
    return {"start": start_date.strftime("%Y-%m-%d"), "end": due_date.strftime("%Y-%m-%d")}
```
The only due-date strings the pipeline produces are `%Y-%m-%d` renderings
(`dateutil` parses them as ISO dates); `parseISO` models
`dateparse.parse` on that shape, with calendar validation (anything else
raises in `dateutil` for this call site and is modelled as `none`).
`timedelta` arithmetic uses the proleptic Gregorian calendar, embedded via
the standard civil-from-days / days-from-civil conversions. -/

/-- Value of a digit character. -/
def digVal (c : Char) : Nat := c.toNat - 48

/-- Gregorian day number (days since 1970-01-01) of a civil date.  All
intermediate divisions act on non-negative operands for the years handled
here, where truncating and flooring division agree. -/
def daysFromCivil (y m d : Int) : Int :=
  let y' := if m ≤ 2 then y - 1 else y
  let era := (if 0 ≤ y' then y' else y' - 399) / 400
  let yoe := y' - era * 400
  let doy := (153 * (if 2 < m then m - 3 else m + 9) + 2) / 5 + d - 1
  let doe := yoe * 365 + yoe / 4 - yoe / 100 + doy
  era * 146097 + doe - 719468

/-- Civil date of a Gregorian day number (inverse of `daysFromCivil`). -/
def civilFromDays (z0 : Int) : Int × Int × Int :=
  let z := z0 + 719468
  let era := (if 0 ≤ z then z else z - 146096) / 146097
  let doe := z - era * 146097
  let yoe := (doe - doe / 1460 + doe / 36524 - doe / 146096) / 365
  let y := yoe + era * 400
  let doy := doe - (365 * yoe + yoe / 4 - yoe / 100)
  let mp := (5 * doy + 2) / 153
  let d := doy - (153 * mp + 2) / 5 + 1
  let m := if mp < 10 then mp + 3 else mp - 9
  (if m ≤ 2 then y + 1 else y, m, d)

/-- Model of `dateutil.parser.parse` on the `%Y-%m-%d` strings this call
site receives: four digits, `-`, two digits, `-`, two digits, calendar
valid. -/
def parseISO (s : String) : Option (Nat × Nat × Nat) :=
  match s.data with
  | [a, b, c, d, '-', e, f, '-', g, h] =>
    if isDig a && isDig b && isDig c && isDig d && isDig e && isDig f &&
        isDig g && isDig h then
      let y := ((digVal a * 10 + digVal b) * 10 + digVal c) * 10 + digVal d
      let m := digVal e * 10 + digVal f
      let dd := digVal g * 10 + digVal h
      mkDate y m dd
    else none
  | _ => none

/-- Embeds `cycle_days` of an issuer: `ISSUERS.get(issuer, {}).get("cycle_days", 30)`
— the configured length for known issuers, 30 for any other id (including
`"UNKNOWN"`). -/
def cycleDaysOf (issuer : String) : Nat :=
  match ISSUERS.find? fun p => p.1 = issuer with
  | some p => p.2.2
  | none => 30

/-- The billing cycle record `{start, end}`. -/
structure BillingCycle where
  start : String
  stop : String
deriving DecidableEq, Repr

/-- Embeds `generate_billing_cycle(issuer, due_date_str)`. -/
def generate_billing_cycle (issuer : String) (due : Option String) :
    Option BillingCycle :=
  match due with
  | none => none
  | some s =>
    match parseISO s with
    | none => none
    | some (y, m, d) =>
      let days := cycleDaysOf issuer
      let n := daysFromCivil (y : Int) (m : Int) (d : Int) - (days : Int)
      let c := civilFromDays n
      some ⟨formatDate c.1.toNat c.2.1.toNat c.2.2.toNat, formatDate y m d⟩

/-! ### Card last-4 extractor: `find_last4`

```python
RE_LAST4 = re.compile(r"(?:card\s*(?:no\.?|number|ending|ending\s*in|xx+)\s*[:\-]?\s*(?:x{2,}\s*){0,3}(\d{4})|\b(\d{4})\b)", re.IGNORECASE)
def find_last4(text):
    for a, b in RE_LAST4.findall(text):
        digits = a or b
        if digits and digits.isdigit() and not (1900 <= int(digits) <= 2100):
            return digits[-4:]
    return None
```
-/

/-- Embeds `x{2,}`, case-insensitive. -/
def mXX : Mtr := fun s =>
  ((List.range ((s.takeWhile fun c => c = 'x' || c = 'X').length + 1)).filter
    (2 ≤ ·)).reverse

/-- The keyword alternation `(?:no\.?|number|ending|ending\s*in|xx+)`, in
source order. -/
def last4Kw : Mtr :=
  malt (mseq (mlitCI ['n', 'o']) (mopt (mlit ['.'])))
    (malt (mlitCI ['n', 'u', 'm', 'b', 'e', 'r'])
      (malt (mlitCI ['e', 'n', 'd', 'i', 'n', 'g'])
        (malt (mseq (mlitCI ['e', 'n', 'd', 'i', 'n', 'g'])
            (mseq (mstarCls isSpc) (mlitCI ['i', 'n'])))
          (mXX))))

/-- The prefix of branch 1 before the captured digits:
`card\s*(?:...)\s*[:\-]?\s*(?:x{2,}\s*){0,3}`. -/
def last4Pre : Mtr :=
  mseq (mlitCI ['c', 'a', 'r', 'd'])
    (mseq (mstarCls isSpc)
      (mseq last4Kw
        (mseq (mstarCls isSpc)
          (mseq (mopt (mcls fun c => c = ':' || c = '-'))
            (mseq (mstarCls isSpc)
              (mcount (mseq mXX (mstarCls isSpc)) 3))))))

/-- The capture `(\d{4})` after `k` consumed prefix characters: exactly
four digits. -/
def last4Cap (s : List Char) (k : Nat) : Option (Nat × String) :=
  if ((s.drop k).take 4).length = 4 && ((s.drop k).take 4).all isDig then
    some (k + 4, ((⟨(s.drop k).take 4⟩ : String)))
  else none

/-- Branch 1 at this position: prefix alternatives in preference order,
then the capture `(\d{4})`; returns (consumed length, captured digits). -/
def last4Branch1 (s : List Char) : Option (Nat × String) :=
  ((last4Pre s).filterMap (last4Cap s)).head?

/-- Branch 2 `\b(\d{4})\b` at this position (leading boundary from the
previous character). -/
def last4Branch2 (prev : Option Char) (s : List Char) : Option (Nat × String) :=
  if isWordOpt prev then none
  else
    if (s.take 4).length = 4 && (s.take 4).all isDig && !isWordOpt (s.get? 4) then
      some (4, ((⟨s.take 4⟩ : String)))
    else none

/-- Embeds `RE_LAST4.findall`: leftmost scan, branch 1 preferred at each position,
non-overlapping; yields the `(group1, group2)` pairs. -/
def last4FindallF : Nat → Option Char → List Char → List (String × String)
  | 0, _, _ => []
  | _, _, [] => []
  | fuel + 1, prev, c :: cs =>
    match last4Branch1 (c :: cs) with
    | some (n, cap) =>
      if 0 < n then
        (cap, "") :: last4FindallF fuel ((c :: cs).get? (n - 1)) ((c :: cs).drop n)
      else last4FindallF fuel (some c) cs
    | none =>
      match last4Branch2 prev (c :: cs) with
      | some (_, cap) =>
        ("", cap) :: last4FindallF fuel ((c :: cs).get? 3) ((c :: cs).drop 4)
      | none => last4FindallF fuel (some c) cs

/-- The scan with adequate fuel. -/
def last4Findall (prev : Option Char) (s : List Char) : List (String × String) :=
  last4FindallF s.length prev s

/-- Value of a decimal-digit string (`int(digits)`). -/
def natOfDigits (s : String) : Nat := digitsVal s.data

/-- The scan loop of `find_last4` over the findall pairs. -/
def last4Loop : List (String × String) → Option String
  | [] => none
  | (a, b) :: rest =>
    let digits := if a.data.isEmpty then b else a
    if !digits.data.isEmpty && digits.data.all isDig &&
        !(1900 ≤ natOfDigits digits && natOfDigits digits ≤ 2100) then
      some ⟨digits.data.drop (digits.data.length - 4)⟩
    else last4Loop rest

/-- Embeds `find_last4(text)` — the source's card-suffix extractor. -/
def find_last4 (text : String) : Option String :=
  last4Loop (last4Findall none text.data)

/-! ### Customer-name resolver: `find_customer_name`

```python
RE_NAME_PATTERNS = [
    r"Customer\s*Name\s*[:\-]?\s*([\w\s\.\']{2,60})(?=\s*(?:Card|A/c|Account|Statement|Period|No|Number|$))",
    r"Statement\s*for\s*[:\-]?\s*([\w\s\.\']{2,60})",
    r"Cardholder\s*[:\-]?\s*([\w\s\.\']{2,60})",
    r"Name\s*[:\-]?\s*([\w\s\.\']{2,60})",
]
def find_customer_name(text):
    cleaned = re.sub(r"[\r\n]+", " ", text)
    cleaned = re.sub(r"\s{2,}", " ", cleaned)
    cleaned = re.sub(r"Customer\s+Name", "Customer Name", cleaned, flags=re.IGNORECASE)
    for pat in RE_NAME_PATTERNS:
        m = re.search(pat, cleaned, re.IGNORECASE)
        if m:
            name = re.sub(r"\b(Card|No|Number|Account|Statement|Period|Details)\b.*", "", m.group(1), flags=re.IGNORECASE).strip()
            if 2 < len(name) < 60:
                return name
    m2 = re.search(r"\b(Mr\.?|Mrs\.?|Ms\.?)\s+[A-Z][a-zA-Z]+\s+[A-Z][a-zA-Z]+", cleaned)
    return m2.group(0).strip() if m2 else None
```
-/

/-- Embeds `re.sub(r"[\r\n]+", " ", text)`. -/
def subRNF : Nat → List Char → List Char
  | 0, _ => []
  | _, [] => []
  | fuel + 1, c :: cs =>
    if c = '\r' || c = '\n' then
      ' ' :: subRNF fuel (cs.dropWhile fun x => x = '\r' || x = '\n')
    else c :: subRNF fuel cs

/-- The substitution with adequate fuel. -/
def subRN (l : List Char) : List Char := subRNF l.length l

/-- Embeds `re.sub(r"\s{2,}", " ", cleaned)`: only runs of two or more whitespace
characters collapse; a single whitespace character stays as it is. -/
def subWS2F : Nat → List Char → List Char
  | 0, _ => []
  | _, [] => []
  | _ + 1, [c] => [c]
  | fuel + 1, c :: d :: cs =>
    if isSpc c then
      if isSpc d then ' ' :: subWS2F fuel ((d :: cs).dropWhile isSpc)
      else c :: subWS2F fuel (d :: cs)
    else c :: subWS2F fuel (d :: cs)

/-- The substitution with adequate fuel. -/
def subWS2 (l : List Char) : List Char := subWS2F l.length l

/-- Attempt of `Customer\s+Name` (case-insensitive) at the head. -/
def cnTry (s : List Char) : Option (List Char) :=
  if (['c', 'u', 's', 't', 'o', 'm', 'e', 'r'] : List Char).isPrefixOf
      (lowerL (s.take 8)) then
    if ((s.drop 8).takeWhile isSpc).isEmpty then none
    else
      if (['n', 'a', 'm', 'e'] : List Char).isPrefixOf
          (lowerL (((s.drop 8).dropWhile isSpc).take 4)) then
        some (((s.drop 8).dropWhile isSpc).drop 4)
      else none
  else none

/-- Embeds `re.sub(r"Customer\s+Name", "Customer Name", cleaned, flags=re.IGNORECASE)`. -/
def subCNF : Nat → List Char → List Char
  | 0, _ => []
  | _, [] => []
  | fuel + 1, c :: cs =>
    match cnTry (c :: cs) with
    | some rest =>
      (['C', 'u', 's', 't', 'o', 'm', 'e', 'r', ' ', 'N', 'a', 'm', 'e'] : List Char)
        ++ subCNF fuel rest
    | none => c :: subCNF fuel cs

/-- The substitution with adequate fuel (`cnTry` always consumes). -/
def subCN (l : List Char) : List Char := subCNF l.length l

/-- The capture class `[\w\s\.\']`. -/
def isNameCls (c : Char) : Bool := isWord c || isSpc c || c = '.' || c = '\''

/-- The lookahead `(?=\s*(?:Card|A/c|Account|Statement|Period|No|Number|$))`
(case-insensitive). -/
def nameLook (rest : List Char) : Bool :=
  let r2 := rest.dropWhile isSpc
  r2.isEmpty ||
    (["card", "a/c", "account", "statement", "period", "no", "number"].any
      fun w => (w : String).data.isPrefixOf (lowerL (r2.take w.length)))

/-- The greedy capture `([\w\s\.\']{2,60})` at `r`, longest first, subject
to the optional lookahead. -/
def nameGroupAt (useLook : Bool) (r : List Char) : Option (List Char) :=
  let run := min (r.takeWhile isNameCls).length 60
  (((List.range (run + 1)).reverse.filter (2 ≤ ·)).find? fun len =>
    !useLook || nameLook (r.drop len)).map (r.take ·)

/-- One `re.search` over the cleaned text: leftmost position at which the
pattern prefix (an `Mtr`, alternatives in preference order) followed by the
capture group succeeds; returns the captured group. -/
def trySearchAt (pre : Mtr) (useLook : Bool) (s : List Char) :
    Option (List Char) :=
  ((pre s).filterMap fun n => nameGroupAt useLook (s.drop n)).head?

/-- Leftmost-position scan for `trySearchAt`. -/
def nameSearch (pre : Mtr) (useLook : Bool) : List Char → Option (List Char)
  | [] => none
  | c :: cs =>
    match trySearchAt pre useLook (c :: cs) with
    | some g => some g
    | none => nameSearch pre useLook cs

/-- Optional `[:\-]`. -/
def optColon : Mtr := mopt (mcls fun c => c = ':' || c = '-')

/-- Prefix of pattern 1: `Customer\s*Name\s*[:\-]?\s*`. -/
def p1pre : Mtr :=
  mseq (mlitCI ['c', 'u', 's', 't', 'o', 'm', 'e', 'r'])
    (mseq (mstarCls isSpc)
      (mseq (mlitCI ['n', 'a', 'm', 'e'])
        (mseq (mstarCls isSpc) (mseq optColon (mstarCls isSpc)))))

/-- Prefix of pattern 2: `Statement\s*for\s*[:\-]?\s*`. -/
def p2pre : Mtr :=
  mseq (mlitCI ['s', 't', 'a', 't', 'e', 'm', 'e', 'n', 't'])
    (mseq (mstarCls isSpc)
      (mseq (mlitCI ['f', 'o', 'r'])
        (mseq (mstarCls isSpc) (mseq optColon (mstarCls isSpc)))))

/-- Prefix of pattern 3: `Cardholder\s*[:\-]?\s*`. -/
def p3pre : Mtr :=
  mseq (mlitCI ['c', 'a', 'r', 'd', 'h', 'o', 'l', 'd', 'e', 'r'])
    (mseq (mstarCls isSpc) (mseq optColon (mstarCls isSpc)))

/-- Prefix of pattern 4: `Name\s*[:\-]?\s*`. -/
def p4pre : Mtr :=
  mseq (mlitCI ['n', 'a', 'm', 'e'])
    (mseq (mstarCls isSpc) (mseq optColon (mstarCls isSpc)))

/-- The stop-word truncation
`re.sub(r"\b(Card|No|Number|Account|Statement|Period|Details)\b.*", "", g)`:
cut from the first word-bounded stop-word occurrence (`.*` consumes the
whole remainder). -/
def stopTrunc (g : List Char) : List Char :=
  let stops : List String :=
    ["card", "no", "number", "account", "statement", "period", "details"]
  let hit : Option Char → List Char → Bool := fun prev r =>
    !isWordOpt prev &&
      stops.any fun w =>
        (w : String).data.isPrefixOf (lowerL (r.take w.length)) &&
          !isWordOpt (r.get? w.length)
  match (List.range g.length).find? fun i => hit (g.get? (i - 1) |>.filter fun _ => i ≠ 0) (g.drop i) with
  | some i => g.take i
  | none => g

/-- Python `str.strip()` (ASCII whitespace). -/
def stripL (l : List Char) : List Char :=
  ((l.dropWhile isSpc).reverse.dropWhile isSpc).reverse

/-- Upper-case ASCII letter. -/
def isUpper (c : Char) : Bool := 'A' ≤ c && c ≤ 'Z'

/-- The honorific fallback pattern
`(Mr\.?|Mrs\.?|Ms\.?)\s+[A-Z][a-zA-Z]+\s+[A-Z][a-zA-Z]+` (case-sensitive). -/
def honM : Mtr :=
  mseq
    (malt (mseq (mlit ['M', 'r']) (mopt (mlit ['.'])))
      (malt (mseq (mlit ['M', 'r', 's']) (mopt (mlit ['.'])))
        (mseq (mlit ['M', 's']) (mopt (mlit ['.'])))))
    (mseq (mplusCls isSpc)
      (mseq (mcls isUpper)
        (mseq (mplusCls isAlph)
          (mseq (mplusCls isSpc) (mseq (mcls isUpper) (mplusCls isAlph))))))

/-- Leftmost match text of the honorific pattern
`\b(Mr\.?|Mrs\.?|Ms\.?)\s+[A-Z][a-zA-Z]+\s+[A-Z][a-zA-Z]+`.  `honM` is the
body after the leading `\b`; every match starts with the word character
`'M'`, so the leading boundary holds exactly when the preceding character
is non-word (tracked as in the date and last-4 scans). -/
def honSearch (prev : Option Char) : List Char → Option (List Char)
  | [] => none
  | c :: cs =>
    if isWordOpt prev then honSearch (some c) cs
    else
      match (honM (c :: cs)).head? with
      | some n => some ((c :: cs).take n)
      | none => honSearch (some c) cs

/-- One iteration of the pattern loop: search, truncate at stop-words,
strip, keep when the length lies strictly between 2 and 60. -/
def namePat (pre : Mtr) (useLook : Bool) (cleaned : List Char) : Option String :=
  match nameSearch pre useLook cleaned with
  | none => none
  | some g =>
    let name := stripL (stopTrunc g)
    if 2 < name.length && name.length < 60 then some (⟨name⟩ : String) else none

/-- Embeds `find_customer_name(text)` — the source's name resolver. -/
def find_customer_name (text : String) : Option String :=
  let cleaned := subCN (subWS2 (subRN text.data))
  match namePat p1pre true cleaned with
  | some n => some n
  | none =>
  match namePat p2pre false cleaned with
  | some n => some n
  | none =>
  match namePat p3pre false cleaned with
  | some n => some n
  | none =>
  match namePat p4pre false cleaned with
  | some n => some n
  | none => (honSearch none cleaned).map fun g => (⟨stripL g⟩ : String)

/-! ### Card type, transactions preview, result assembly -/

/-- The card-type keyword list of `parse_statement`. -/
def cardTypes : List String :=
  ["Platinum", "Gold", "Classic", "Signature", "World", "Visa",
   "Mastercard", "Titanium", "Infinite"]

/-- Embeds `next((t for t in [...] if t.lower() in txt.lower()), "N/A")`. -/
def cardTypeOf (txt : String) : String :=
  match cardTypes.find? fun t => containsL (strLower t).data (lowerL txt.data) with
  | some t => t
  | none => "N/A"

/-- Embeds `RE_DATE.search(ln)` succeeds iff the findall scan yields a match. -/
def reDateHas (l : List Char) : Bool := !(dateFindall none l).isEmpty

/-- Embeds `RE_AMOUNT.search(ln)` succeeds iff the finditer scan yields a match. -/
def reAmountHas (l : List Char) : Bool := !(finditerM reAmountM l 0).isEmpty

/-- Python `text.split("\n")` (an empty text yields one empty line). -/
def splitNl : List Char → List (List Char)
  | [] => [[]]
  | c :: cs =>
    if c = '\n' then [] :: splitNl cs
    else
      match splitNl cs with
      | h :: t => (c :: h) :: t
      | [] => [[c]]

/-- The accumulation loop of `extract_transactions_simple` (early break at
`max_lines`). -/
def txnGo (maxL : Nat) : List (List Char) → List String → List String
  | [], acc => acc
  | ln :: rest, acc =>
    if reDateHas ln && reAmountHas ln then
      let acc' := acc ++ [(⟨stripL ln⟩ : String)]
      if maxL ≤ acc'.length then acc' else txnGo maxL rest acc'
    else txnGo maxL rest acc

/-- Embeds `extract_transactions_simple(text, max_lines=200)`: the lines holding
both a date-like and an amount-like token, stripped. -/
def extract_transactions_simple (text : String) (maxL : Nat) : List String :=
  txnGo maxL (splitNl text.data) []

/-- The output record of `parse_statement` (spec `ExtractionResult`): the
same fixed field set for every input.  String fields carry the `"N/A"`
placeholder when unresolved (the source's `x or "N/A"`); the billing cycle
is a dict-or-`"N/A"` union in Python, embedded as an `Option` whose `none`
is rendered as the placeholder. -/
structure ExtractionResult where
  file : String
  issuer : String
  customer_name : String
  card_last4 : String
  card_type : String
  billing_cycle : Option BillingCycle
  payment_due_date : String
  total_amount_due : String
  transactions_preview : List String
deriving DecidableEq, Repr

/-- The label set `parse_statement` passes to `find_label_value`. -/
def stdTotalLabels : List String :=
  ["total amount due", "amount due", "total due", "new balance",
   "amount payable"]

/-- Embeds `parse_statement(path)` — the result assembler.  Text acquisition
(`extract_text`) is an external collaborator: `raw` is the text it
returned (possibly empty) and `fileName` is `os.path.basename(path)`. -/
def parse_statement (fileName raw : String) : ExtractionResult :=
  let txt := clean_text raw
  let issuer := detect_issuer txt
  { file := fileName
    issuer := issuer
    customer_name := (find_customer_name txt).getD ("N/A")
    card_last4 := (find_last4 txt).getD ("N/A")
    card_type := cardTypeOf txt
    billing_cycle := generate_billing_cycle issuer (find_due_date_near_label txt)
    payment_due_date := (find_due_date_near_label txt).getD ("N/A")
    total_amount_due := (find_label_value txt stdTotalLabels).getD ("N/A")
    transactions_preview := (extract_transactions_simple txt 200).take 20 }

/-! ### Auxiliary definitions used by the claim statements -/

/-- A document whose text contains two dates exactly 30 days apart
following the label `"Statement Period"`. -/
def c1doc : String := "Statement Period: 01/03/2024 to 31/03/2024"

/-- The synthetic cycle start: the due date minus the issuer's cycle
length, in proleptic-Gregorian day arithmetic. -/
def cycleStartOf (issuer : String) (y m d : Nat) : String :=
  let c := civilFromDays
    (daysFromCivil (y : Int) (m : Int) (d : Int) - (cycleDaysOf issuer : Int))
  formatDate c.1.toNat c.2.1.toNat c.2.2.toNat

/-- The selection order of the source's
`max(candidates, key=lambda c: (c["val"], -c["distance"]))`: `x` ranks no
higher than `y` when `x`'s value is smaller, or the values are equal and
`y` sits no farther from its label. -/
def valLE (x y : AmountCand) : Prop :=
  x.val < y.val ∨ (x.val = y.val ∧ y.distance ≤ x.distance)

/-- First `some` of a list of options, with a fallback — the declarative
form of a scan-labels-then-fall-back loop. -/
def firstSomeL : List (Option String) → Option String → Option String
  | [], fb => fb
  | o :: os, fb =>
    match o with
    | some d => some d
    | none => firstSomeL os fb

/-- Adjacent characters are never both plain spaces. -/
def noSpcPair (a b : Char) : Prop := a ≠ ' ' ∨ b ≠ ' '

/-! ## Claim theorems -/

/-! ### C8 — empty-input totality -/

/-- Claim **C8**: on empty input text, extraction returns the full fixed record:
issuer `UNKNOWN`, every unresolved string field carrying the `"N/A"`
placeholder, no billing cycle, and an empty transactions preview.  (The
record type `ExtractionResult` fixes the same field set for every input;
totality is by construction — every resolver is a total function.) -/
theorem c8_empty_input_totality :
    parse_statement ("statement.pdf") ("") =
      { file := "statement.pdf", issuer := "UNKNOWN", customer_name := "N/A",
        card_last4 := "N/A", card_type := "N/A", billing_cycle := none,
        payment_due_date := "N/A", total_amount_due := "N/A",
        transactions_preview := [] } := by decide

/-! ### C9 — line-break amount repair -/

/-- Claim **C9**: the text `"Total Amount Due\n12\n543.89"` normalizes to
`"Total Amount Due 12,543.89"` (the split decimal is re-joined with a
comma), and the total-due resolver yields `₹12,543.89` — the same value it
yields on the unbroken text. -/
theorem c9_linebreak_amount_repair :
    clean_text ("Total Amount Due\n12\n543.89") = "Total Amount Due 12,543.89" ∧
      find_label_value (clean_text ("Total Amount Due\n12\n543.89"))
          stdTotalLabels = some ("₹12,543.89") ∧
      find_label_value ("Total Amount Due 12,543.89") stdTotalLabels =
        some ("₹12,543.89") := by decide

/-! ### C1 — billing cycle is never taken from statement-period anchors -/

/-- Claim **C1** (counterexample): on `c1doc` the extracted billing cycle is
`(2024-01-31, 2024-03-01)` — derived from the fallback due date
`2024-03-01` minus the 30-day default cycle length — and not the
statement-period anchor pair `(2024-03-01, 2024-03-31)` the claim
requires.  No statement-period window search exists in the code. -/
theorem c1_counterexample :
    (parse_statement ("s.pdf") c1doc).billing_cycle =
        some ⟨"2024-01-31", "2024-03-01"⟩ ∧
      (parse_statement ("s.pdf") c1doc).billing_cycle ≠
        some ⟨"2024-03-01", "2024-03-31"⟩ := by decide

/-- Claim **C1** (amended): the billing cycle is derived solely from the resolved
due date and the issuer's cycle length (30 days for an unknown issuer),
never from statement-period anchor dates: on `c1doc` the due-date resolver
falls back to the document's first valid date `2024-03-01`, and the billing
cycle is exactly `generate_billing_cycle` of that date —
`(2024-01-31, 2024-03-01)`. -/
theorem c1_amended_cycle_from_due_date :
    find_due_date_near_label c1doc = some ("2024-03-01") ∧
      (parse_statement ("s.pdf") c1doc).billing_cycle =
        generate_billing_cycle ("UNKNOWN") (some ("2024-03-01")) ∧
      generate_billing_cycle ("UNKNOWN") (some ("2024-03-01")) =
        some ⟨"2024-01-31", "2024-03-01"⟩ := by decide

/-! ### C5 — synthetic billing-cycle fallback -/

theorem natDigitsF_digit {fuel m : Nat} (hf : m < fuel) (h9 : m ≤ 9) :
    natDigitsF fuel m = [digitChar m] := by
  cases fuel with
  | zero => omega
  | succ f =>
    simp only [natDigitsF]
    rw [if_pos (by omega)]

theorem natDigitsF_two {fuel m : Nat} (hf : m < fuel) (h1 : 10 ≤ m)
    (h2 : m ≤ 99) : natDigitsF fuel m = [digitChar (m / 10), digitChar (m % 10)] := by
  cases fuel with
  | zero => omega
  | succ f =>
    simp only [natDigitsF]
    rw [if_neg (by omega), natDigitsF_digit (by omega) (by omega)]
    rfl

theorem natDigitsF_three {fuel m : Nat} (hf : m < fuel) (h1 : 100 ≤ m)
    (h2 : m ≤ 999) :
    natDigitsF fuel m =
      [digitChar (m / 100), digitChar (m / 10 % 10), digitChar (m % 10)] := by
  cases fuel with
  | zero => omega
  | succ f =>
    simp only [natDigitsF]
    rw [if_neg (by omega), natDigitsF_two (by omega) (by omega) (by omega)]
    have e1 : m / 10 / 10 = m / 100 := by omega
    rw [e1]
    rfl

theorem natDigits_four {y : Nat} (h1 : 1000 ≤ y) (h2 : y ≤ 9999) :
    natDigits y = [digitChar (y / 1000), digitChar (y / 100 % 10),
      digitChar (y / 10 % 10), digitChar (y % 10)] := by
  unfold natDigits
  simp only [natDigitsF]
  rw [if_neg (by omega), natDigitsF_three (by omega) (by omega) (by omega)]
  have e1 : y / 10 / 100 = y / 1000 := by omega
  have e2 : y / 10 / 10 = y / 100 := by omega
  have e3 : y / 10 % 10 = y / 10 % 10 := rfl
  rw [e1, e2]
  rfl

theorem digitChar_isDig : ∀ k, k < 10 → isDig (digitChar k) = true := by decide

theorem digVal_digitChar : ∀ k, k < 10 → digVal (digitChar k) = k := by decide

/-- Embeds `%m`/`%d` rendering of a number up to 99: two digit characters whose
value recombines to the number. -/
theorem pad2Digits {m : Nat} (h : m ≤ 99) :
    ∃ e f, padZeros 2 (natDigits m) = [e, f] ∧ isDig e = true ∧
      isDig f = true ∧ digVal e * 10 + digVal f = m := by
  by_cases h10 : m < 10
  · refine ⟨'0', digitChar m, ?_, by decide, digitChar_isDig m (by omega), ?_⟩
    · unfold natDigits
      rw [natDigitsF_digit (by omega) (by omega)]
      rfl
    · have h0 : digVal '0' = 0 := by decide
      rw [h0, digVal_digitChar m (by omega)]
      omega
  · refine ⟨digitChar (m / 10), digitChar (m % 10), ?_,
      digitChar_isDig _ (by omega), digitChar_isDig _ (by omega), ?_⟩
    · unfold natDigits
      rw [natDigitsF_two (by omega) (by omega) (by omega)]
      rfl
    · rw [digVal_digitChar _ (by omega), digVal_digitChar _ (by omega)]
      omega

theorem daysInMonth_le_31 (y m : Nat) : daysInMonth y m ≤ 31 := by
  unfold daysInMonth
  split
  · split <;> omega
  · split <;> omega

/-- Embeds `strftime("%Y-%m-%d")` followed by `dateutil` parsing round-trips on
every calendar-valid date with a four-digit year. -/
theorem parseISO_formatDate {y m d : Nat} (hy1 : 1000 ≤ y) (hy2 : y ≤ 9999)
    (hm1 : 1 ≤ m) (hm2 : m ≤ 12) (hd1 : 1 ≤ d) (hd2 : d ≤ daysInMonth y m) :
    parseISO (formatDate y m d) = some (y, m, d) := by
  have hd31 : d ≤ 31 := hd2.trans (daysInMonth_le_31 y m)
  obtain ⟨e1, f1, hm', he1, hf1, hv1⟩ := pad2Digits (show m ≤ 99 by omega)
  obtain ⟨e2, f2, hd', he2, hf2, hv2⟩ := pad2Digits (show d ≤ 99 by omega)
  unfold formatDate
  rw [natDigits_four hy1 hy2, hm', hd']
  have hy4 : padZeros 4 [digitChar (y / 1000), digitChar (y / 100 % 10),
      digitChar (y / 10 % 10), digitChar (y % 10)] =
      [digitChar (y / 1000), digitChar (y / 100 % 10),
       digitChar (y / 10 % 10), digitChar (y % 10)] := rfl
  rw [hy4]
  show parseISO ⟨_⟩ = _
  unfold parseISO
  simp only [List.cons_append, List.nil_append]
  rw [if_pos]
  · rw [digVal_digitChar _ (by omega), digVal_digitChar _ (by omega),
      digVal_digitChar _ (by omega), digVal_digitChar _ (by omega), hv1, hv2]
    have hy : ((y / 1000 * 10 + y / 100 % 10) * 10 + y / 10 % 10) * 10 + y % 10 = y := by
      omega
    rw [hy]
    unfold mkDate
    rw [if_pos]
    simp only [Bool.and_eq_true, decide_eq_true_eq]
    omega
  · simp only [digitChar_isDig _ (by omega : y / 1000 < 10),
      digitChar_isDig _ (by omega : y / 100 % 10 < 10),
      digitChar_isDig _ (by omega : y / 10 % 10 < 10),
      digitChar_isDig _ (by omega : y % 10 < 10), he1, hf1, he2, hf2]
    rfl

/-- Claim **C5** (counterexample): `"UNKNOWN"` appears in no issuer profile, yet
a synthetic cycle *is* produced from a resolved due date — the lookup
`ISSUERS.get(issuer, {}).get("cycle_days", 30)` silently defaults the
cycle length to 30 days, contradicting the claim that no synthetic cycle
is produced when the classified issuer's profile defines no cycle
length. -/
theorem c5_counterexample :
    generate_billing_cycle ("UNKNOWN") (some ("2024-03-01")) =
        some ⟨"2024-01-31", "2024-03-01"⟩ ∧
      (ISSUERS.find? fun p => p.1 = "UNKNOWN") = none := by decide

/-- Claim **C5** (amended): a synthetic cycle is derived whenever a due date is
resolved — for *every* issuer id, with the profile's cycle length for
configured issuers and a default of 30 days otherwise (including
`UNKNOWN`) — and satisfies `end == dueDate`,
`start == dueDate - cycleDays`; when no due date is resolved, no cycle is
produced. -/
theorem c5_amended_synthetic_cycle :
    (∀ issuer : String, generate_billing_cycle issuer none = none) ∧
      ∀ (issuer : String) (y m d : Nat),
        1000 ≤ y → y ≤ 9999 → 1 ≤ m → m ≤ 12 → 1 ≤ d → d ≤ daysInMonth y m →
        generate_billing_cycle issuer (some (formatDate y m d)) =
          some ⟨cycleStartOf issuer y m d, formatDate y m d⟩ := by
  constructor
  · intro issuer
    rfl
  · intro issuer y m d h1 h2 h3 h4 h5 h6
    unfold generate_billing_cycle
    simp only [parseISO_formatDate h1 h2 h3 h4 h5 h6, cycleStartOf]

/-- Claim **C5** (witness): the amended theorem at `("UNKNOWN", 2024-03-01)`. -/
theorem c5_witness :
    generate_billing_cycle ("UNKNOWN") none = none ∧
      generate_billing_cycle ("UNKNOWN") (some (formatDate 2024 3 1)) =
        some ⟨cycleStartOf ("UNKNOWN") 2024 3 1, formatDate 2024 3 1⟩ :=
  ⟨c5_amended_synthetic_cycle.1 ("UNKNOWN"),
   c5_amended_synthetic_cycle.2 ("UNKNOWN") 2024 3 1 (by decide) (by decide)
     (by decide) (by decide) (by decide) (by decide)⟩

/-! ### C2 — amount-field scoring -/

theorem valLE_refl (x : AmountCand) : valLE x x := Or.inr ⟨rfl, le_refl _⟩

theorem valLE_trans {x y z : AmountCand} (h1 : valLE x y) (h2 : valLE y z) :
    valLE x z := by
  rcases h1 with h1 | ⟨e1, d1⟩
  · rcases h2 with h2 | ⟨e2, d2⟩
    · exact Or.inl (h1.trans h2)
    · exact Or.inl (e2 ▸ h1)
  · rcases h2 with h2 | ⟨e2, d2⟩
    · exact Or.inl (e1.symm ▸ h2)
    · exact Or.inr ⟨e1.trans e2, d2.trans d1⟩

theorem valLE_of_keyGT_true {x a : AmountCand} (h : keyGT x a = true) :
    valLE a x := by
  simp only [keyGT, Bool.or_eq_true, Bool.and_eq_true, decide_eq_true_eq] at h
  rcases h with h | ⟨e, hd⟩
  · exact Or.inl h
  · exact Or.inr ⟨e.symm, hd.le⟩

theorem valLE_of_keyGT_false {x a : AmountCand} (h : keyGT x a = false) :
    valLE x a := by
  have h' : ¬(a.val < x.val ∨ (x.val = a.val ∧ x.distance < a.distance)) := by
    intro hc
    rcases hc with hc | ⟨e, hd⟩
    · simp [keyGT, hc] at h
    · simp [keyGT, e, hd] at h
  push_neg at h'
  rcases lt_trichotomy x.val a.val with hlt | heq | hgt
  · exact Or.inl hlt
  · refine Or.inr ⟨heq, ?_⟩
    have := h'.2 heq
    omega
  · exact absurd hgt (not_lt.mpr h'.1)

/-- The fold of Python `max` with the `(val, -distance)` key returns a
pooled candidate that every candidate ranks no higher than. -/
theorem pickBest_spec : ∀ (l : List AmountCand) (a : AmountCand),
    pickBest a l ∈ a :: l ∧ ∀ y ∈ a :: l, valLE y (pickBest a l) := by
  intro l
  induction l with
  | nil =>
    intro a
    refine ⟨List.mem_singleton_self a, ?_⟩
    intro y hy
    rw [List.mem_singleton] at hy
    subst hy
    exact valLE_refl _
  | cons x xs ih =>
    intro a
    simp only [pickBest]
    obtain ⟨hmem, hle⟩ := ih (if keyGT x a then x else a)
    by_cases hgt : keyGT x a = true
    · rw [if_pos hgt] at hmem hle ⊢
      refine ⟨List.mem_cons_of_mem a hmem, ?_⟩
      intro y hy
      rcases List.mem_cons.mp hy with rfl | hy'
      · exact valLE_trans (valLE_of_keyGT_true hgt) (hle x (List.mem_cons_self _ _))
      · exact hle y hy'
    · rw [if_neg hgt] at hmem hle ⊢
      have hgt' : keyGT x a = false := by
        cases hq : keyGT x a
        · rfl
        · exact absurd hq hgt
      constructor
      · rcases List.mem_cons.mp hmem with hq | hm'
        · rw [hq]
          exact List.mem_cons_self _ _
        · exact List.mem_cons_of_mem _ (List.mem_cons_of_mem _ hm')
      · intro y hy
        rcases List.mem_cons.mp hy with rfl | hy'
        · exact hle y (List.mem_cons_self _ _)
        · rcases List.mem_cons.mp hy' with rfl | hy''
          · exact valLE_trans (valLE_of_keyGT_false hgt')
              (hle a (List.mem_cons_self _ _))
          · exact hle y (List.mem_cons_of_mem _ hy'')

/-- Claim **C2**: whenever the total-due resolver pools at least one parseable
candidate from the windows around label occurrences, the returned value is
the formatted string of a pooled candidate that has the largest numeric
value and, among candidates of that value, the smallest recorded distance
to its anchoring label occurrence. -/
theorem c2_amount_scoring (text : String) (labels : List String)
    (h : pooledCandidates text labels ≠ []) :
    ∃ c ∈ pooledCandidates text labels,
      find_label_value text labels = some c.fmt ∧
        ∀ c' ∈ pooledCandidates text labels,
          c'.val < c.val ∨ (c'.val = c.val ∧ c.distance ≤ c'.distance) := by
  unfold pooledCandidates at h ⊢
  by_cases he : text.data.isEmpty = true
  · simp [he] at h
  · simp only [he, Bool.false_eq_true, if_false] at h ⊢
    have hp : labelPositions (lowerL text.data) labels ≠ [] := by
      intro hpe
      apply h
      simp [hpe, pooled0]
    unfold find_label_value
    rw [if_neg (by simp [he])]
    have hpe : (labelPositions (lowerL text.data) labels).isEmpty = false := by
      cases hq : labelPositions (lowerL text.data) labels with
      | nil => exact absurd hq hp
      | cons p ps => simp
    rw [if_neg (by simp [hpe])]
    obtain ⟨c, cs, hcs⟩ := List.exists_cons_of_ne_nil h
    rw [hcs]
    obtain ⟨hm, hl⟩ := pickBest_spec cs c
    exact ⟨pickBest c cs, hm, rfl, fun c' hc' => hl c' hc'⟩

/-- Claim **C2** (witness): on `"total due 7"` the pool is non-empty and the
resolver returns the best candidate's formatted value. -/
theorem c2_witness :
    pooledCandidates ("total due 7") ["total due"] ≠ [] ∧
      ∃ c ∈ pooledCandidates ("total due 7") ["total due"],
        find_label_value ("total due 7") ["total due"] = some c.fmt ∧
          ∀ c' ∈ pooledCandidates ("total due 7") ["total due"],
            c'.val < c.val ∨ (c'.val = c.val ∧ c.distance ≤ c'.distance) :=
  ⟨by decide, c2_amount_scoring ("total due 7") ["total due"] (by decide)⟩

/-! ### C3 — due-date resolution order -/

/-- The early-return token loop equals first-of-filter. -/
theorem firstValidDate_eq_head (ts : List String) :
    firstValidDate ts = (ts.filterMap validDateOf).head? := by
  induction ts with
  | nil => rfl
  | cons t ts ih =>
    simp only [firstValidDate, List.filterMap_cons]
    cases h : validDateOf t
    · simpa using ih
    · simp

/-- The due-date resolver is exactly: first valid-range date of the first
contributing due label (in priority order), falling back to the first
valid-range date of the whole document. -/
theorem dueLoop_characterization (t : String) :
    find_due_date_near_label t =
      firstSomeL (dueLabels.map (labelFirstValid t)) ((validDates t).head?) := by
  unfold find_due_date_near_label dueLabels
  simp only [List.map]
  cases h1 : labelFirstValid t ("payment due date") <;>
    cases h2 : labelFirstValid t ("due date") <;>
      cases h3 : labelFirstValid t ("pay by") <;>
        cases h4 : labelFirstValid t ("payment date") <;>
          simp [dueLoop, firstSomeL, h1, h2, h3, h4, firstValidDate_eq_head,
            validDates]

/-- Claim **C3**: the due-date resolver scans the due labels in their fixed
priority order and returns the first valid-range date contributed by a
label window, and when no label window contributes one it falls back to
the first valid-range date of the full document; in particular, a document
with no due-label-anchored valid date and exactly one valid-range date
elsewhere resolves to that date. -/
theorem c3_due_date_resolution :
    (∀ t : String, find_due_date_near_label t =
        firstSomeL (dueLabels.map (labelFirstValid t)) ((validDates t).head?)) ∧
      ∀ (t d : String),
        (dueLabels.all fun l => (labelFirstValid t l).isNone) = true →
        validDates t = [d] → find_due_date_near_label t = some d := by
  constructor
  · exact dueLoop_characterization
  · intro t d hnone hv
    rw [dueLoop_characterization t, hv]
    simp only [List.all_eq_true] at hnone
    have e1 := Option.isNone_iff_eq_none.mp (hnone ("payment due date") (by simp [dueLabels]))
    have e2 := Option.isNone_iff_eq_none.mp (hnone ("due date") (by simp [dueLabels]))
    have e3 := Option.isNone_iff_eq_none.mp (hnone ("pay by") (by simp [dueLabels]))
    have e4 := Option.isNone_iff_eq_none.mp (hnone ("payment date") (by simp [dueLabels]))
    simp [dueLabels, e1, e2, e3, e4, firstSomeL]

/-- Claim **C3** (witness): a document with no due labels and exactly one
valid-range date resolves to that date via the fallback. -/
theorem c3_witness :
    find_due_date_near_label ("zzzz: 15/06/2024 ;zzzz") = some ("2024-06-15") :=
  c3_due_date_resolution.2 ("zzzz: 15/06/2024 ;zzzz") ("2024-06-15")
    (by decide) (by decide)

/-! ### C6 — last-4 resolution and the calendar-year rejection -/

theorem last4Cap_len {s : List Char} {k n : Nat} {cap : String}
    (h : last4Cap s k = some (n, cap)) : cap.data.length = 4 := by
  unfold last4Cap at h
  split at h
  · rename_i hcond
    injection h with h'
    injection h' with h1 h2
    subst h2
    simp only [Bool.and_eq_true, decide_eq_true_eq] at hcond
    exact hcond.1
  · exact absurd h (by simp)

theorem last4Branch1_cap {s : List Char} {n : Nat} {cap : String}
    (h : last4Branch1 s = some (n, cap)) : cap.data.length = 4 := by
  unfold last4Branch1 at h
  obtain ⟨k, hk, hf⟩ := List.mem_filterMap.mp
    (List.mem_of_mem_head? (Option.mem_def.mpr h))
  exact last4Cap_len hf

theorem last4Branch2_cap {prev : Option Char} {s : List Char} {n : Nat}
    {cap : String} (h : last4Branch2 prev s = some (n, cap)) :
    cap.data.length = 4 := by
  unfold last4Branch2 at h
  split at h
  · exact absurd h (by simp)
  · split at h
    · rename_i hcond
      injection h with h'
      injection h' with h1 h2
      subst h2
      simp only [Bool.and_eq_true, decide_eq_true_eq] at hcond
      exact hcond.1.1
    · exact absurd h (by simp)

/-- Every pair the `RE_LAST4` scan yields has its four captured digits in
exactly one of the two groups. -/
theorem last4FindallF_shape : ∀ (fuel : Nat) (prev : Option Char) (s : List Char),
    ∀ p ∈ last4FindallF fuel prev s,
      (p.1.data.length = 4 ∧ p.2 = "") ∨ (p.1 = "" ∧ p.2.data.length = 4) := by
  intro fuel
  induction fuel with
  | zero =>
    intro prev s p hp
    simp [last4FindallF] at hp
  | succ f ih =>
    intro prev s p hp
    cases s with
    | nil => simp [last4FindallF] at hp
    | cons c cs =>
      simp only [last4FindallF] at hp
      cases hb1 : last4Branch1 (c :: cs) with
      | some pr =>
        obtain ⟨n, cap⟩ := pr
        simp only [hb1] at hp
        by_cases hn : 0 < n
        · rw [if_pos hn] at hp
          rcases List.mem_cons.mp hp with hhd | htl
          · subst hhd
            exact Or.inl ⟨last4Branch1_cap hb1, rfl⟩
          · exact ih _ _ _ htl
        · rw [if_neg hn] at hp
          exact ih _ _ _ hp
      | none =>
        simp only [hb1] at hp
        cases hb2 : last4Branch2 prev (c :: cs) with
        | some pr2 =>
          obtain ⟨n2, cap2⟩ := pr2
          simp only [hb2] at hp
          rcases List.mem_cons.mp hp with hhd | htl
          · subst hhd
            exact Or.inr ⟨rfl, last4Branch2_cap hb2⟩
          · exact ih _ _ _ htl
        | none =>
          simp only [hb2] at hp
          exact ih _ _ _ hp

/-- The scan loop of `find_last4` never returns a value inside the
calendar-year range 1900–2100 (both match branches feed four-digit
captures, for which the returned `digits[-4:]` is the candidate itself). -/
theorem last4Loop_reject {ps : List (String × String)} {d : String}
    (hshape : ∀ p ∈ ps,
      (p.1.data.length = 4 ∧ p.2 = "") ∨ (p.1 = "" ∧ p.2.data.length = 4))
    (h : last4Loop ps = some d) :
    ¬(1900 ≤ natOfDigits d ∧ natOfDigits d ≤ 2100) := by
  induction ps with
  | nil => simp [last4Loop] at h
  | cons p rest ih =>
    obtain ⟨a, b⟩ := p
    simp only [last4Loop] at h
    rcases hshape (a, b) (List.mem_cons_self _ _) with ⟨ha4, _⟩ | ⟨ha, hb4⟩
    · simp only at ha4
      have hae : a.data.isEmpty = false := by
        cases hd : a.data with
        | nil => rw [hd] at ha4; simp at ha4
        | cons x xs => simp
      simp only [hae, Bool.false_eq_true, if_false] at h
      split at h
      · rename_i hcond
        injection h with h'
        simp only [Bool.and_eq_true, Bool.not_eq_true', decide_eq_true_eq] at hcond
        have hd4 : a.data.drop (a.data.length - 4) = a.data := by
          rw [ha4]
          simp
        rw [hd4] at h'
        subst h'
        intro hr
        have he : natOfDigits (⟨a.data⟩ : String) = natOfDigits a := rfl
        rw [he] at hr
        have h2 := hcond.2
        simp [hr.1, hr.2] at h2
      · exact ih (fun q hq => hshape q (List.mem_cons_of_mem _ hq)) h
    · simp only at ha hb4
      subst ha
      simp only [List.isEmpty_nil, if_true] at h
      split at h
      · rename_i hcond
        injection h with h'
        simp only [Bool.and_eq_true, Bool.not_eq_true', decide_eq_true_eq] at hcond
        have hd4 : b.data.drop (b.data.length - 4) = b.data := by
          rw [hb4]
          simp
        rw [hd4] at h'
        subst h'
        intro hr
        have he : natOfDigits (⟨b.data⟩ : String) = natOfDigits b := rfl
        rw [he] at hr
        have h2 := hcond.2
        simp [hr.1, hr.2] at h2
      · exact ih (fun q hq => hshape q (List.mem_cons_of_mem _ hq)) h

/-- Claim **C6** (counterexample): the four digits captured from an explicit
"card number" phrase are *not* returned when they lie in the calendar-year
range — `"Card No: XXXX XXXX XXXX 2024"` resolves to no last-4, although
the claim requires `"2024"` to be returned on the explicit path. -/
theorem c6_counterexample :
    find_last4 ("Card No: XXXX XXXX XXXX 2024") = none := by decide

/-- Claim **C6** (amended): matches are scanned in document order and the
calendar-year rejection applies to *every* four-digit candidate, captured
or bare: `"Card No: XXXX XXXX XXXX 4321"` resolves to `"4321"`, the bare
year `"2024"` resolves to nothing, and no resolved last-4 ever lies in
1900–2100. -/
theorem c6_amended_year_rejection :
    find_last4 ("Card No: XXXX XXXX XXXX 4321") = some ("4321") ∧
      find_last4 ("2024") = none ∧
      ∀ (t d : String), find_last4 t = some d →
        ¬(1900 ≤ natOfDigits d ∧ natOfDigits d ≤ 2100) := by
  refine ⟨by decide, by decide, ?_⟩
  intro t d h
  unfold find_last4 last4Findall at h
  exact last4Loop_reject (fun p hp => last4FindallF_shape _ _ _ p hp) h

/-- Claim **C6** (witness): the amended theorem applied at the explicit-phrase
document, whose resolved `"4321"` is outside 1900–2100. -/
theorem c6_witness :
    ¬(1900 ≤ natOfDigits ("4321") ∧ natOfDigits ("4321") ≤ 2100) :=
  c6_amended_year_rejection.2.2 ("Card No: XXXX XXXX XXXX 4321") ("4321")
    (by decide)

/-! ### C7 — issuer classification -/

/-- Claim **C7**: the classifier lower-cases the text once and tests the issuer
profiles in declaration order for substring containment of any keyword: a
text containing some keyword of issuer `i` and no keyword of any other
issuer classifies to `i`, and a text containing no configured keyword
classifies to `UNKNOWN`. -/
theorem c7_issuer_classification :
    (∀ (t i : String) (kws : List String) (cd : Nat),
        (i, (kws, cd)) ∈ ISSUERS →
        kws.any (fun k => containsL k.data (lowerL t.data)) = true →
        (ISSUERS.all fun p =>
          p.1 = i || p.2.1.all fun k => !containsL k.data (lowerL t.data)) = true →
        detect_issuer t = i) ∧
      ∀ t : String,
        (ISSUERS.all fun p =>
          p.2.1.all fun k => !containsL k.data (lowerL t.data)) = true →
        detect_issuer t = "UNKNOWN" := by
  constructor
  · intro t i kws cd hmem hkw hother
    simp only [ISSUERS, List.mem_cons, List.not_mem_nil, or_false,
      Prod.mk.injEq] at hmem
    simp only [ISSUERS, List.all_cons, List.all_nil, Bool.and_eq_true,
      Bool.and_true, Bool.or_eq_true, List.any_cons, List.any_nil,
      Bool.or_false, Bool.not_eq_true', decide_eq_true_eq] at hother
    unfold detect_issuer ISSUERS
    rcases hmem with ⟨rfl, rfl, rfl⟩ | ⟨rfl, rfl, rfl⟩ | ⟨rfl, rfl, rfl⟩ |
      ⟨rfl, rfl, rfl⟩ | ⟨rfl, rfl, rfl⟩ <;>
      simp_all [detectGo, List.any_cons, List.any_nil]
  · intro t hall
    simp only [ISSUERS, List.all_cons, List.all_nil, Bool.and_eq_true,
      Bool.and_true, List.any_cons, List.any_nil, Bool.or_false,
      Bool.not_eq_true'] at hall
    unfold detect_issuer ISSUERS
    simp_all [detectGo, List.any_cons, List.any_nil]

/-- Claim **C7** (witness): a text containing only the HDFC keyword classifies
to HDFC. -/
theorem c7_witness :
    detect_issuer ("my hdfc bank statement") = "HDFC" :=
  c7_issuer_classification.1 ("my hdfc bank statement") ("HDFC") ["hdfc"] 30
    (by decide) (by decide) (by decide)

/-! ### C4 — normalizer idempotence -/

/-- Every whitespace character in a `sub3` output is a plain space. -/
theorem sub3F_spc : ∀ (fuel : Nat) (l : List Char),
    ∀ c ∈ sub3F fuel l, isSpc c = true → c = ' ' := by
  intro fuel
  induction fuel with
  | zero =>
    intro l c hc
    simp [sub3F] at hc
  | succ f ih =>
    intro l c hc hspc
    cases l with
    | nil => simp [sub3F] at hc
    | cons x xs =>
      simp only [sub3F] at hc
      by_cases hx : isSpc x = true
      · rw [if_pos hx] at hc
        rcases List.mem_cons.mp hc with rfl | hc'
        · rfl
        · exact ih _ c hc' hspc
      · rw [if_neg hx] at hc
        rcases List.mem_cons.mp hc with rfl | hc'
        · exact absurd hspc hx
        · exact ih _ c hc' hspc

/-- The head of a `sub3` output is the (space-collapsed) head of the
input. -/
theorem sub3F_head : ∀ (f : Nat) (l : List Char) (y : Char),
    (sub3F f l).head? = some y →
      ∃ c, l.head? = some c ∧ y = (if isSpc c then ' ' else c) := by
  intro f l y h
  cases f with
  | zero => simp [sub3F] at h
  | succ f' =>
    cases l with
    | nil => simp [sub3F] at h
    | cons x xs =>
      simp only [sub3F] at h
      by_cases hx : isSpc x = true
      · rw [if_pos hx] at h
        simp only [List.head?_cons, Option.some.injEq] at h
        exact ⟨x, rfl, by rw [if_pos hx, h]⟩
      · rw [if_neg hx] at h
        simp only [List.head?_cons, Option.some.injEq] at h
        exact ⟨x, rfl, by rw [if_neg hx, h]⟩

/-- A `sub3` output never has two adjacent spaces. -/
theorem sub3F_chain : ∀ (fuel : Nat) (l : List Char),
    List.Chain' noSpcPair (sub3F fuel l) := by
  intro fuel
  induction fuel with
  | zero =>
    intro l
    simp [sub3F]
  | succ f ih =>
    intro l
    cases l with
    | nil => simp [sub3F]
    | cons x xs =>
      simp only [sub3F]
      by_cases hx : isSpc x = true
      · rw [if_pos hx, List.chain'_cons']
        refine ⟨?_, ih _⟩
        intro y hy
        obtain ⟨c, hc, rfl⟩ := sub3F_head f _ y (Option.mem_def.mp hy)
        have hcns : isSpc c = false := by
          have hw := List.head?_dropWhile_not isSpc xs
          rw [hc] at hw
          simpa using hw
        rw [if_neg (by simp [hcns])]
        right
        intro hceq
        rw [hceq] at hcns
        simp [isSpc] at hcns
      · rw [if_neg hx, List.chain'_cons']
        refine ⟨?_, ih _⟩
        intro y hy
        left
        intro hxeq
        rw [hxeq] at hx
        simp [isSpc] at hx

theorem rupTry_mem {cs rest : List Char} (h : rupTry cs = some rest) :
    ∀ x ∈ rest, x ∈ cs := by
  unfold rupTry at h
  split at h
  · rename_i heq
    injection h with h'
    subst h'
    intro x hx
    have hx' : x ∈ cs.dropWhile isSpc := by
      rw [heq]
      exact List.mem_cons_of_mem _ hx
    exact (List.dropWhile_suffix isSpc).sublist.subset hx'
  · exact absurd h (by simp)

theorem rupTry_chain {cs rest : List Char} (h : rupTry cs = some rest)
    (hc : List.Chain' noSpcPair cs) : List.Chain' noSpcPair rest := by
  unfold rupTry at h
  split at h
  · rename_i heq
    injection h with h'
    subst h'
    have h1 : List.Chain' noSpcPair (cs.dropWhile isSpc) :=
      hc.suffix (List.dropWhile_suffix isSpc)
    rw [heq] at h1
    exact h1.tail
  · exact absurd h (by simp)

/-- Every character of a `sub4` output is an input character or `'₹'`. -/
theorem sub4F_mem : ∀ (fuel : Nat) (l : List Char) (c : Char),
    c ∈ sub4F fuel l → c ∈ l ∨ c = '₹' := by
  intro fuel
  induction fuel with
  | zero =>
    intro l c hc
    simp [sub4F] at hc
  | succ f ih =>
    intro l c hc
    cases l with
    | nil => simp [sub4F] at hc
    | cons x xs =>
      simp only [sub4F] at hc
      by_cases hx : x = '₹'
      · rw [if_pos hx] at hc
        cases hr : rupTry xs with
        | some rest =>
          simp only [hr] at hc
          rcases List.mem_cons.mp hc with rfl | hc'
          · exact Or.inr rfl
          · rcases ih rest c hc' with hin | hrp
            · exact Or.inl (List.mem_cons_of_mem _ (rupTry_mem hr c hin))
            · exact Or.inr hrp
        | none =>
          simp only [hr] at hc
          rcases List.mem_cons.mp hc with rfl | hc'
          · exact Or.inl (List.mem_cons_self _ _)
          · rcases ih xs c hc' with hin | hrp
            · exact Or.inl (List.mem_cons_of_mem _ hin)
            · exact Or.inr hrp
      · rw [if_neg hx] at hc
        rcases List.mem_cons.mp hc with rfl | hc'
        · exact Or.inl (List.mem_cons_self _ _)
        · rcases ih xs c hc' with hin | hrp
          · exact Or.inl (List.mem_cons_of_mem _ hin)
          · exact Or.inr hrp

/-- Embeds `sub4` preserves the head character. -/
theorem sub4F_head : ∀ (f : Nat) (l : List Char) (y : Char),
    (sub4F f l).head? = some y → l.head? = some y := by
  intro f l y h
  cases f with
  | zero => simp [sub4F] at h
  | succ f' =>
    cases l with
    | nil => simp [sub4F] at h
    | cons x xs =>
      simp only [sub4F] at h
      by_cases hx : x = '₹'
      · rw [if_pos hx] at h
        cases hr : rupTry xs with
        | some rest =>
          simp only [hr, List.head?_cons, Option.some.injEq] at h
          rw [List.head?_cons, hx, h]
        | none =>
          simp only [hr, List.head?_cons, Option.some.injEq] at h
          rw [List.head?_cons, h]
      · rw [if_neg hx] at h
        simp only [List.head?_cons, Option.some.injEq] at h
        rw [List.head?_cons, h]

/-- Embeds `sub4` preserves the no-adjacent-spaces invariant. -/
theorem sub4F_chain : ∀ (fuel : Nat) (l : List Char),
    List.Chain' noSpcPair l → List.Chain' noSpcPair (sub4F fuel l) := by
  intro fuel
  induction fuel with
  | zero =>
    intro l _
    simp [sub4F]
  | succ f ih =>
    intro l hc
    cases l with
    | nil => simp [sub4F]
    | cons x xs =>
      simp only [sub4F]
      by_cases hx : x = '₹'
      · rw [if_pos hx]
        cases hr : rupTry xs with
        | some rest =>
          rw [List.chain'_cons']
          refine ⟨?_, ih rest (rupTry_chain hr hc.tail)⟩
          intro y _
          left
          intro hq
          exact absurd hq (by decide)
        | none =>
          rw [List.chain'_cons']
          refine ⟨?_, ih xs hc.tail⟩
          intro y hy
          exact (List.chain'_cons'.mp hc).1 y
            (Option.mem_def.mpr (sub4F_head f xs y (Option.mem_def.mp hy)))
      · rw [if_neg hx]
        rw [List.chain'_cons']
        refine ⟨?_, ih xs hc.tail⟩
        intro y hy
        exact (List.chain'_cons'.mp hc).1 y
          (Option.mem_def.mpr (sub4F_head f xs y (Option.mem_def.mp hy)))

/-- Embeds `sub4` is the identity when no `₹\s*₹` match exists. -/
theorem sub4F_id : ∀ (fuel : Nat) (l : List Char), l.length ≤ fuel →
    hasRupMatch l = false → sub4F fuel l = l := by
  intro fuel
  induction fuel with
  | zero =>
    intro l hl _
    cases l with
    | nil => rfl
    | cons x xs => simp at hl
  | succ f ih =>
    intro l hl hm
    cases l with
    | nil => rfl
    | cons x xs =>
      simp only [sub4F]
      simp only [hasRupMatch] at hm
      by_cases hx : x = '₹'
      · rw [if_pos hx]
        rw [if_pos hx] at hm
        cases hr : rupTry xs with
        | some rest =>
          rw [hr] at hm
          simp at hm
        | none =>
          rw [hr] at hm
          rw [ih xs (by simp at hl; omega) hm, hx]
      · rw [if_neg hx]
        rw [if_neg hx] at hm
        rw [ih xs (by simp at hl; omega) hm]

/-- Embeds `sub3` is the identity on text whose whitespace is single plain
spaces. -/
theorem sub3F_id : ∀ (fuel : Nat) (l : List Char), l.length ≤ fuel →
    (∀ c ∈ l, isSpc c = true → c = ' ') → List.Chain' noSpcPair l →
    sub3F fuel l = l := by
  intro fuel
  induction fuel with
  | zero =>
    intro l hl _ _
    cases l with
    | nil => rfl
    | cons x xs => simp at hl
  | succ f ih =>
    intro l hl hspc hchain
    cases l with
    | nil => rfl
    | cons x xs =>
      simp only [sub3F]
      by_cases hx : isSpc x = true
      · rw [if_pos hx]
        have hx' : x = ' ' := hspc x (List.mem_cons_self _ _) hx
        have hdw : xs.dropWhile isSpc = xs := by
          cases xs with
          | nil => rfl
          | cons y ys =>
            have hy : ¬isSpc y = true := by
              have hpair := (List.chain'_cons'.mp hchain).1 y rfl
              rcases hpair with hxne | hyne
              · exact absurd hx' hxne
              · intro hyspc
                exact hyne (hspc y (List.mem_cons_of_mem _
                  (List.mem_cons_self _ _)) hyspc)
            simp [List.dropWhile_cons, hy]
        rw [hdw, hx']
        congr 1
        exact ih xs (by simp at hl; omega)
          (fun c hc => hspc c (List.mem_cons_of_mem _ hc)) hchain.tail
      · rw [if_neg hx]
        congr 1
        exact ih xs (by simp at hl; omega)
          (fun c hc => hspc c (List.mem_cons_of_mem _ hc)) hchain.tail

/-- The line-break repair pattern cannot match text without a newline. -/
theorem sub2Try_none {l : List Char} (h : '\n' ∉ l) : sub2Try l = none := by
  unfold sub2Try
  split
  · rfl
  · have hnc : ¬(((l.dropWhile isDig).takeWhile isSpc).contains '\n' = true) := by
      intro hc
      have hmem : '\n' ∈ (l.dropWhile isDig).takeWhile isSpc :=
        List.elem_iff.mp hc
      have hmem2 : '\n' ∈ l.dropWhile isDig :=
        (List.takeWhile_sublist isSpc).subset hmem
      exact h ((List.dropWhile_suffix isDig).sublist.subset hmem2)
    rw [if_neg hnc]

/-- Embeds `sub2` is the identity on newline-free text. -/
theorem sub2F_id : ∀ (fuel : Nat) (l : List Char), l.length ≤ fuel →
    '\n' ∉ l → sub2F fuel l = l := by
  intro fuel
  induction fuel with
  | zero =>
    intro l hl _
    cases l with
    | nil => rfl
    | cons x xs => simp at hl
  | succ f ih =>
    intro l hl hnl
    cases l with
    | nil => simp only [sub2F, sub2Try_none hnl]
    | cons x xs =>
      simp only [sub2F, sub2Try_none hnl]
      congr 1
      exact ih xs (by simp at hl; omega)
        (fun hm => hnl (List.mem_cons_of_mem _ hm))

/-- Embeds `sub1` is the identity on carriage-return-free text. -/
theorem sub1_id : ∀ {l : List Char}, '\r' ∉ l → sub1 l = l := by
  intro l h
  unfold sub1
  induction l with
  | nil => rfl
  | cons x xs ih =>
    simp only [List.map_cons]
    rw [if_neg (fun hx => h (by rw [← hx]; exact List.mem_cons_self x xs))]
    rw [ih (fun hm => h (List.mem_cons_of_mem _ hm))]

/-- Whitespace in normalized text is always the plain space. -/
theorem cleanL_spc {l : List Char} : ∀ c ∈ cleanL l, isSpc c = true → c = ' ' := by
  intro c hc hspc
  rcases sub4F_mem _ _ c hc with hin | hrp
  · exact sub3F_spc _ _ c hin hspc
  · rw [hrp] at hspc
    exact absurd hspc (by decide)

/-- Normalized text never has two adjacent spaces. -/
theorem cleanL_chain {l : List Char} : List.Chain' noSpcPair (cleanL l) :=
  sub4F_chain _ _ (sub3F_chain _ _)

/-- Normalized text contains no newline. -/
theorem cleanL_no_nl {l : List Char} : '\n' ∉ cleanL l := by
  intro hm
  have := cleanL_spc '\n' hm (by decide)
  exact absurd this (by decide)

/-- Normalized text contains no carriage return. -/
theorem cleanL_no_cr {l : List Char} : '\r' ∉ cleanL l := by
  intro hm
  have := cleanL_spc '\r' hm (by decide)
  exact absurd this (by decide)

/-- Claim **C4** (counterexample): the normalizer is *not* idempotent — the
non-overlapping `₹\s*₹ → ₹` substitution leaves a fresh adjacent pair in
`"₹₹₹"`, whose image `"₹₹"` shrinks again on a second pass. -/
theorem c4_counterexample_triple_rupee :
    clean_text (clean_text ("₹₹₹")) ≠ clean_text ("₹₹₹") := by decide

/-- Claim **C4** (amended): the normalizer is idempotent on every input whose
normalized form retains no `₹\s*₹` match (equivalently, no `₹₹` or `₹ ₹`
pair — the only way a match survives is a run of three or more rupee
signs in the raw text, as in the counterexample). -/
theorem c4_amended_idempotent (t : String)
    (h : hasRupPair (clean_text t) = false) :
    clean_text (clean_text t) = clean_text t := by
  have hm : hasRupMatch (cleanL t.data) = false := h
  have h1 : sub1 (cleanL t.data) = cleanL t.data := sub1_id cleanL_no_cr
  have h2 : sub2 (cleanL t.data) = cleanL t.data :=
    sub2F_id _ _ le_rfl cleanL_no_nl
  have h3 : sub3 (cleanL t.data) = cleanL t.data :=
    sub3F_id _ _ le_rfl cleanL_spc cleanL_chain
  have h4 : sub4 (cleanL t.data) = cleanL t.data := sub4F_id _ _ le_rfl hm
  show (⟨cleanL (cleanL t.data)⟩ : String) = ⟨cleanL t.data⟩
  have : cleanL (cleanL t.data) = cleanL t.data := by
    show sub4 (sub3 (sub2 (sub1 (cleanL t.data)))) = cleanL t.data
    rw [h1, h2, h3, h4]
  rw [this]

/-- Claim **C4** (witness): the amended theorem at an input that exercises every
substitution pass and leaves no rupee pair. -/
theorem c4_witness :
    hasRupPair (clean_text ("a\r\nb ₹ 12")) = false ∧
      clean_text (clean_text ("a\r\nb ₹ 12")) = clean_text ("a\r\nb ₹ 12") :=
  ⟨by decide, c4_amended_idempotent ("a\r\nb ₹ 12") (by decide)⟩

/-! ### C10 — transactions preview collapses to at most one entry -/

/-- Embeds `split("\n")` of newline-free text is that single line. -/
theorem splitNl_no_nl : ∀ (l : List Char), '\n' ∉ l → splitNl l = [l] := by
  intro l h
  induction l with
  | nil => rfl
  | cons x xs ih =>
    simp only [splitNl]
    rw [if_neg (fun hx => h (by rw [← hx]; exact List.mem_cons_self x xs))]
    rw [ih (fun hm => h (List.mem_cons_of_mem _ hm))]

/-- Claim **C10** (amended): the transactions preview holds at most one entry —
normalization collapses every line terminator, the heuristic sees one
line, and the preview is empty or the single *stripped* normalized text. -/
theorem c10_amended_preview_at_most_one (fn raw : String) :
    (parse_statement fn raw).transactions_preview = [] ∨
      (parse_statement fn raw).transactions_preview =
        [⟨stripL (clean_text raw).data⟩] := by
  show (extract_transactions_simple (clean_text raw) 200).take 20 = _ ∨
    (extract_transactions_simple (clean_text raw) 200).take 20 = _
  unfold extract_transactions_simple
  have hd : (clean_text raw).data = cleanL raw.data := rfl
  rw [hd, splitNl_no_nl _ cleanL_no_nl]
  simp only [txnGo]
  by_cases hc : (reDateHas (cleanL raw.data) && reAmountHas (cleanL raw.data)) = true
  · rw [if_pos hc]
    right
    rfl
  · rw [if_neg hc]
    left
    rfl

/-- Claim **C10** (counterexample): the single preview entry is the *stripped*
normalized text, not the entire normalized document text: on the input
`" 1/1/2024 5 "` (normalization keeps the leading and trailing space) the
preview entry is `"1/1/2024 5"`, which differs from the normalized text. -/
theorem c10_counterexample :
    (parse_statement ("f.pdf") (" 1/1/2024 5 ")).transactions_preview =
        ["1/1/2024 5"] ∧
      clean_text (" 1/1/2024 5 ") = " 1/1/2024 5 " ∧
      (("1/1/2024 5" : String) ≠ clean_text (" 1/1/2024 5 ")) := by decide

end CardHolder
